import Mathlib

/-!
# embedded-scpi-lite: the command dispatcher of `Parser::process`

A shallow embedding of `src/Parser.h` and of the command table and the
per-channel handlers of `src/ExampleParser.cpp`.

Conventions of the embedding.

* A C string is the list of its bytes before the terminating NUL, each byte a
  `Nat` (`cstr "CHAN3"` is `[67, 72, 65, 78, 51]`).
* A `char *` that may be `NULL` is an `Option`.
* A run of the source either has an outcome or leaves the objects of the
  source (`Result.fault`): a store past the `MAX_TOKEN_DEPTH = 8` slots of a
  token array, an access to `s[strlen(s) - 1]` of an empty string, a read of
  `CommandHandlers[i]` outside the table, or the `char` index `i` stepping
  past `CHAR_MAX`.  The C standard gives such a run no meaning and the model
  gives it no outcome.
* The token arrays are the lists of the tokens stored, valid only when every
  store was inside the array; the counters stay below 8 then, inside `char`.
* `tolower` is that of the "C" locale.
* A handler is named, not run: `process` yields the invocations it makes
  itself, with the arguments it passes.
* The two per-channel handlers of `ExampleParser` are functions from the data
  members to an `Effect`: the members left, the `printf` calls made (format and
  arguments, not rendered) and the accesses made to the per-channel arrays.
-/

namespace ScpiLite

/-! ## Strings -/

/-- The bytes of an (ASCII) string literal. -/
def cstr (s : String) : List Nat := s.toList.map Char.toNat

/-- The byte `' '`. -/
def SPACE : Nat := 32
/-- The byte `':'`. -/
def COLON : Nat := 58
/-- The byte `'?'`. -/
def QMARK : Nat := 63
/-- The byte `'0'`. -/
def ZERO : Nat := 48

/-- `tolower` of `<ctype.h>` in the "C" locale. -/
def tolower (c : Nat) : Nat := if 65 ≤ c ∧ c ≤ 90 then c + 32 else c

/-- `strcspn(s, d)` for a one-character reject set: the length of the longest
initial part of `s` that does not contain `d`. -/
def strcspn (d : Nat) : List Nat → Nat
  | [] => 0
  | c :: cs => if c = d then 0 else strcspn d cs + 1

/-- `strsep(&sp, d)` for a one-character delimiter set.  Returns the token
(`NULL` when `*sp` is `NULL`) and the new value of `*sp`. -/
def strsep (d : Nat) : Option (List Nat) → Option (List Nat) × Option (List Nat)
  | none => (none, none)
  | some s =>
    let n := strcspn d s
    match s.drop n with
    | [] => (some s, none)
    | _ :: rest => (some (s.take n), some rest)

/-- Whether `needle` occurs in `hay` at offset 0, ignoring case: the inner
comparison of `strcasestr`. -/
def matchAt : List Nat → List Nat → Bool
  | [], _ => true
  | _ :: _, [] => false
  | a :: needle, b :: hay => tolower a == tolower b && matchAt needle hay

/-- `strcasestr(hay, needle)`: the offset of the first occurrence of `needle`
in `hay` ignoring case, `none` for `NULL`. -/
def strcasestr : List Nat → List Nat → Option Nat
  | [], needle => if matchAt needle [] then some 0 else none
  | c :: hay, needle =>
    if matchAt needle (c :: hay) then some 0
    else (strcasestr hay needle).map (· + 1)

/-! ## The data model -/

/-- The C implementation parameters the embedding depends on. -/
structure Target where
  /-- whether plain `char` is signed -/
  charSigned : Bool
  /-- the width of `unsigned` -/
  uintBits : Nat

/-- `CHAR_MAX` of the target. -/
def charMax (tgt : Target) : Nat := if tgt.charSigned then 127 else 255

/-- `Parser::Handler`: one row of the command table.  `η` names the handler
methods; a `NULL` method pointer is `none`. -/
structure Handler (η : Type) where
  cmd : Option (List Nat)
  handler : Option η
  supportsChannels : Bool
  help : Option (List Nat)
deriving DecidableEq

/-- `Parser::END_OF_HANDLERS`. -/
def END_OF_HANDLERS {η : Type} : Handler η :=
  { cmd := none, handler := none, supportsChannels := false, help := none }

/-- One invocation `(this->*handler)(cmd, query, channel, args)`. -/
structure Call (η : Type) where
  handler : Option η
  cmd : List Nat
  query : Bool
  channel : Nat
  args : List Nat
deriving DecidableEq

/-- What a call of `Parser::process` does: the handler invocations it makes,
in order, and the pointer it returns. -/
structure Outcome (η : Type) where
  calls : List (Call η)
  ret : Option (List Nat)
deriving DecidableEq

/-- The ways a run of `Parser::process` leaves the objects of the source. -/
inductive Fault where
  /-- `input[strlen(input) - 1]` with an empty `input` (lines 111-113) -/
  | emptyCommandText
  /-- a store `toks[index]` with `index >= MAX_TOKEN_DEPTH` (lines 117-118, 129-130) -/
  | tokenOverflow
  /-- `tplTokens[0][strlen(tplTokens[0]) - 1]` with an empty first token (line 135) -/
  | emptyPlaceholder
  /-- `inputTokens[0][strlen(inputTokens[0]) - 1]` with an empty first token (line 148) -/
  | emptyChannelToken
  /-- `CommandHandlers[i]` read past the last row of the table (line 124) -/
  | tableOverrun
  /-- `i++` past `CHAR_MAX` (line 153): with a signed `char` the next read is
  `CommandHandlers[i]` at a negative index; with an unsigned `char` the index is
  back at 0 and a scan that has not matched runs over the same rows for ever -/
  | indexWrap
deriving DecidableEq

/-- An outcome, or the fault that ends the run. -/
inductive Result (α : Type) where
  | ok (a : α)
  | fault (f : Fault)
deriving DecidableEq

/-! ## `Parser::process` -/

/-- `Parser::MAX_TOKEN_DEPTH`. -/
def MAX_TOKEN_DEPTH : Nat := 8

/-- Lines 106-108: `args = input + strcspn(input, " "); if (*args == ' ')
*args++ = NULL;`.  Returns the string `input` now holds and `args`. -/
def splitArgs (inp : List Nat) : List Nat × List Nat :=
  let n := strcspn SPACE inp
  match inp.drop n with
  | [] => (inp, [])
  | c :: rest => if c = SPACE then (inp.take n, rest) else (inp, c :: rest)

/-- Lines 111-114: the query test on the last character of `input`.  Returns
`query` and the string `input` now holds; an empty `input` has no last
character to read. -/
def detectQuery (input : List Nat) : Result (Bool × List Nat) :=
  match input.getLast? with
  | none => .fault .emptyCommandText
  | some c => if c = QMARK then .ok (true, input.dropLast) else .ok (false, input)

/-- The loop `while ((toks[count++] = strsep(&sp, ":")) != NULL);` as the
sequence of stores `toks[index] = value` it performs, started with the counter
at `count`.  Returns the stores and the final value of the counter. -/
def storeLoop : Nat → Option (List Nat) → Nat → List (Nat × Option (List Nat)) →
    List (Nat × Option (List Nat)) × Nat
  | 0, _, count, stores => (stores, count)
  | fuel + 1, sp, count, stores =>
    match strsep COLON sp with
    | (none, _) => (stores ++ [(count, none)], count + 1)
    | (some tok, sp') => storeLoop fuel sp' (count + 1) (stores ++ [(count, some tok)])

/-- Lines 117-118 and 129-130 as the sequence of stores into the token array:
those of the loop, then `toks[count] = NULL`. -/
def tokeniseStores (s : List Nat) : List (Nat × Option (List Nat)) :=
  let r := storeLoop (s.length + 2) (some s) 0 []
  r.1 ++ [(r.2, none)]

/-- Lines 117-118 and 129-130: tokenise `s` on `':'` into an array of
`MAX_TOKEN_DEPTH` slots.  The loop body runs once per token and once more for
the `NULL`, so `strlen(s) + 2` iterations are always enough.  When every store
is inside the array, the result is the tokens stored and the final value of
the counter. -/
def tokenise (s : List Nat) : Result (List (List Nat) × Nat) :=
  let r := storeLoop (s.length + 2) (some s) 0 []
  if (tokeniseStores s).all (fun st => decide (st.1 < MAX_TOKEN_DEPTH)) then
    .ok (r.1.filterMap Prod.snd, r.2)
  else .fault .tokenOverflow

/-- Lines 134-135: `tplTokens[0][strlen(tplTokens[0]) - 1] = NULL`. -/
def stripPlaceholder : List (List Nat) → Result (List (List Nat))
  | [] => .fault .emptyPlaceholder
  | [] :: _ => .fault .emptyPlaceholder
  | (c :: cs) :: ts => .ok ((c :: cs).dropLast :: ts)

/-- Lines 141-144: `while (matched && tplTokens[j]) { matched = ...; j++; }`.
The list argument holds `tplTokens[j], tplTokens[j+1], ...` up to the `NULL`. -/
def cmpLoop (inputTokens : List (List Nat)) : List (List Nat) → Nat → Bool → Bool
  | [], _, matched => matched
  | t :: ts, j, matched =>
    if matched then
      cmpLoop inputTokens ts (j + 1)
        (match inputTokens.get? j with
         | some x => strcasestr x t == some 0
         | none => false)
    else false

/-- Lines 125-144: the test of one table entry with template `cmd` against the
tokenised input. -/
def entryTest (inputTokens : List (List Nat)) (inputTokenCount : Nat)
    (cmd : List Nat) (supportsChannels : Bool) : Result Bool :=
  match tokenise cmd with
  | .fault f => .fault f
  | .ok tpl =>
    match (if supportsChannels then stripPlaceholder tpl.1 else .ok tpl.1) with
    | .fault f => .fault f
    | .ok tplTokens => .ok (cmpLoop inputTokens tplTokens 0 (inputTokenCount == tpl.2))

/-- Lines 117-118 and 125-144 together: the command text `text` is tokenised
and the entry with template `cmd` is tested against its tokens. -/
def testText (text cmd : List Nat) (supportsChannels : Bool) : Result Bool :=
  match tokenise text with
  | .fault f => .fault f
  | .ok tk => entryTest tk.1 tk.2 cmd supportsChannels

/-- Line 148: `channel = inputTokens[0][strlen(inputTokens[0]) - 1] - '0'`,
the value `channel` (a `char`) then holds, as its 8-bit pattern. -/
def channelChar (inputTokens : List (List Nat)) : Result Nat :=
  match (inputTokens.headD []).getLast? with
  | none => .fault .emptyChannelToken
  | some c => .ok ((c + 256 - ZERO) % 256)

/-- The conversion of the `char channel` to the handler's `unsigned channel`. -/
def toUnsigned (tgt : Target) (c : Nat) : Nat :=
  if tgt.charSigned && decide (128 ≤ c) then 2 ^ tgt.uintBits - 256 + c else c

/-- Lines 123-154: the scan of `CommandHandlers`.  The list holds the rows
`CommandHandlers[i]`, `CommandHandlers[i+1]`, ... of the table; `i` is the
`char` index, and `matched`, `channel` and the invocations made so far are
carried along.  After the body, `i++` (line 153) is followed by the read of
`CommandHandlers[i].cmd` in the loop condition: when `i` was `CHAR_MAX`, a
signed `char` makes that a read at a negative index; an unsigned `char` is back
at row 0, where the loop stops if `matched` is set and else starts over. -/
def scanTable {η : Type} (tgt : Target) (inp : List Nat) (query : Bool) (args : List Nat)
    (inputTokens : List (List Nat)) (inputTokenCount : Nat) :
    List (Handler η) → Nat → Bool → Nat → List (Call η) → Result (List (Call η))
  | [], _, _, _, _ => .fault .tableOverrun
  | h :: rest, i, matched, channel, calls =>
    match h.cmd with
    | none => .ok calls
    | some cmd =>
      if matched then .ok calls
      else
        match entryTest inputTokens inputTokenCount cmd h.supportsChannels with
        | .fault f => .fault f
        | .ok false =>
          if i = charMax tgt then .fault .indexWrap
          else scanTable tgt inp query args inputTokens inputTokenCount rest (i + 1) false
            channel calls
        | .ok true =>
          match (if h.supportsChannels then channelChar inputTokens else .ok channel) with
          | .fault f => .fault f
          | .ok channel' =>
            if i = charMax tgt then
              if tgt.charSigned then .fault .indexWrap
              else .ok (calls ++ [{ handler := h.handler, cmd := inp, query := query,
                                    channel := toUnsigned tgt channel', args := args }])
            else scanTable tgt inp query args inputTokens inputTokenCount rest (i + 1) true
              channel'
              (calls ++ [{ handler := h.handler, cmd := inp, query := query,
                           channel := toUnsigned tgt channel', args := args }])

/-- `Parser::process(in)` over the table `CommandHandlers`. -/
def process {η : Type} (tgt : Target) (CommandHandlers : List (Handler η)) (inp : List Nat) :
    Result (Outcome η) :=
  match detectQuery (splitArgs inp).1 with
  | .fault f => .fault f
  | .ok dq =>
    match tokenise dq.2 with
    | .fault f => .fault f
    | .ok tk =>
      match scanTable tgt inp dq.1 (splitArgs inp).2 tk.1 tk.2 CommandHandlers 0 false 0 [] with
      | .fault f => .fault f
      | .ok calls => .ok { calls := calls, ret := none }

/-- The pointer a call of `Parser::process` returns: that of its outcome, and
`NULL` also for a call without one. -/
def returned {η : Type} (r : Result (Outcome η)) : Option (List Nat) :=
  match r with
  | .ok o => o.ret
  | .fault _ => none

/-! ## The example table -/

/-- The handler methods of `ExampleParser`. -/
inductive ExHandler where
  | ADDRHandler | IDNHandler | SAVHandler | RCLHandler | RSTHandler | TRGHandler
  | HELPHandler | SystemAddrHandler | SystemTriggerHandler | QUITHandler
  | ChannelHandler | ChannelModeHandler
deriving DecidableEq

/-- `ExampleParser::NOTHING`. -/
def NOTHING : List Nat := cstr ""
/-- `ExampleParser::QUERY_ONLY`. -/
def QUERY_ONLY : List Nat := cstr "(QUERY ONLY)"

/-- One row of `ExampleParser::Handlers`. -/
def row (cmd : String) (h : ExHandler) (sc : Bool) (help : List Nat) : Handler ExHandler :=
  { cmd := some (cstr cmd), handler := some h, supportsChannels := sc, help := some help }

/-- `ExampleParser::Handlers`. -/
def Handlers : List (Handler ExHandler) :=
  [ row "++ADDR" .ADDRHandler false (cstr "[ 0 -- 7 ]"),
    row "*IDN" .IDNHandler false QUERY_ONLY,
    row "*SAV" .SAVHandler false NOTHING,
    row "*RCL" .RCLHandler false NOTHING,
    row "*RST" .RSTHandler false NOTHING,
    row "*TRG" .TRGHandler false NOTHING,
    row "HELP" .HELPHandler false QUERY_ONLY,
    row "ID" .IDNHandler false QUERY_ONLY,
    row "SYST:ADDR" .SystemAddrHandler false QUERY_ONLY,
    row "SYST:TRIG" .SystemTriggerHandler false QUERY_ONLY,
    row "QUIT" .QUITHandler false NOTHING,
    row "CHAN0" .ChannelHandler true (cstr "\x7b 0 | 1 | OFF | ON | LO | HI \x7d"),
    row "CHAN0:MODE" .ChannelModeHandler true (cstr "\x7b INPUT | INPUT_PULLUP | OUTPUT \x7d"),
    END_OF_HANDLERS ]

/-- The hosted build of the example: signed `char`, 32-bit `unsigned`. -/
def hosted : Target := { charSigned := true, uintBits := 32 }

/-! ## The reading of the matching rule in words -/

/-- The `d`-separated segments of `s`, empty segments kept: there is one more
segment than there are `d` in `s`, no segment contains `d`, and joining them
with `d` gives `s` back (`segments_length`, `segments_no_delim`,
`segments_join`). -/
def segments (d : Nat) : List Nat → List (List Nat)
  | [] => [[]]
  | c :: cs =>
    if c = d then [] :: segments d cs
    else
      match segments d cs with
      | [] => [[c]]
      | t :: ts => (c :: t) :: ts

/-- The bytes `a` and `b` are the same character up to the case of a letter
`A`-`Z` / `a`-`z`. -/
def SameLetter (a b : Nat) : Prop :=
  a = b ∨ (65 ≤ a ∧ a ≤ 90 ∧ b = a + 32) ∨ (65 ≤ b ∧ b ≤ 90 ∧ a = b + 32)

/-- `p` is a case-insensitive prefix of `s`: `s` begins with a string that
agrees with `p` character by character up to the case of letters. -/
def PrefixCI (p s : List Nat) : Prop :=
  ∃ q r, s = q ++ r ∧ List.Forall₂ SameLetter p q

/-- The template segments used in the comparison: those of `cmd`, the first one
with its last character removed when the entry supports channels. -/
def templateSegments (cmd : List Nat) (supportsChannels : Bool) : List (List Nat) :=
  match segments COLON cmd with
  | [] => []
  | t :: ts => (if supportsChannels then t.dropLast else t) :: ts

/-- The matching rule in words: same number of colon-separated segments, and
every template segment is a case-insensitive prefix of the input segment at the
same index. -/
def SpecMatches (text cmd : List Nat) (supportsChannels : Bool) : Prop :=
  (segments COLON text).length = (segments COLON cmd).length ∧
  ∀ j t, (templateSegments cmd supportsChannels).get? j = some t →
    ∃ x, (segments COLON text).get? j = some x ∧ PrefixCI t x

/-- The command text of a line: the part before the first space, a trailing
`'?'` removed. -/
def commandText (inp : List Nat) : List Nat :=
  if (splitArgs inp).1.getLast? = some QMARK then (splitArgs inp).1.dropLast
  else (splitArgs inp).1

/-- Whether the part of the line before the first space ends with `'?'`. -/
def isQuery (inp : List Nat) : Bool := decide ((splitArgs inp).1.getLast? = some QMARK)

/-- The first colon-separated segment of the command text of a line. -/
def firstSegment (inp : List Nat) : List Nat := (segments COLON (commandText inp)).headD []

/-- The matching rule evaluated segment by segment: the lists have the same
length and each template segment occurs at the start of the input segment at
the same index, ignoring case. -/
def segsMatch : List (List Nat) → List (List Nat) → Bool
  | [], [] => true
  | t :: ts, x :: xs => matchAt t x && segsMatch ts xs
  | _, _ => false

/-- The entry `e` matches the line `inp` under the matching rule (a sentinel
has no template to match). -/
def entryMatches {η : Type} (inp : List Nat) (e : Handler η) : Bool :=
  match e.cmd with
  | none => false
  | some cmd =>
    segsMatch (templateSegments cmd e.supportsChannels) (segments COLON (commandText inp))

/-- The entry `e` sits at index `k` of the table, no sentinel occurs at an index
up to `k`, `e` matches the line, and no entry at a lower index does. -/
def LowestMatch {η : Type} (tbl : List (Handler η)) (inp : List Nat) (k : Nat)
    (e : Handler η) : Prop :=
  tbl.get? k = some e ∧
  (∀ i e', i ≤ k → tbl.get? i = some e' → e'.cmd ≠ none) ∧
  entryMatches inp e = true ∧
  ∀ i e', i < k → tbl.get? i = some e' → entryMatches inp e' = false

instance {η : Type} (tbl : List (Handler η)) (inp : List Nat) (k : Nat) (e : Handler η)
    [DecidableEq η] : Decidable (LowestMatch tbl inp k e) := by
  unfold LowestMatch
  have d1 : Decidable (∀ i e', i ≤ k → tbl.get? i = some e' → e'.cmd ≠ none) :=
    decidable_of_iff (∀ i, i < k + 1 → ∀ e' ∈ tbl.get? i, e'.cmd ≠ none)
      ⟨fun h i e' hi hg => h i (Nat.lt_succ_of_le hi) e' hg,
       fun h i hi e' hg => h i e' (Nat.le_of_lt_succ hi) hg⟩
  have d2 : Decidable (∀ i e', i < k → tbl.get? i = some e' → entryMatches inp e' = false) :=
    decidable_of_iff (∀ i, i < k → ∀ e' ∈ tbl.get? i, entryMatches inp e' = false)
      ⟨fun h i e' hi hg => h i hi e' hg, fun h i hi e' hg => h i e' hi hg⟩
  exact inferInstance

/-- The entry `s` is a sentinel: its template is absent. -/
def IsSentinel {η : Type} (s : Handler η) : Prop := s.cmd = none

/-- The first sentinel of the table stands at index `s`, and no entry before it
matches the line. -/
def NoMatchBefore {η : Type} (tbl : List (Handler η)) (inp : List Nat) (s : Nat) : Prop :=
  (∃ e, tbl.get? s = some e ∧ e.cmd = none) ∧
  ∀ i e', i < s → tbl.get? i = some e' → e'.cmd ≠ none ∧ entryMatches inp e' = false

instance {η : Type} (tbl : List (Handler η)) (inp : List Nat) (s : Nat) :
    Decidable (NoMatchBefore tbl inp s) := by
  unfold NoMatchBefore
  have d1 : Decidable (∃ e, tbl.get? s = some e ∧ e.cmd = none) :=
    decidable_of_iff (∃ e ∈ tbl.get? s, e.cmd = none)
      ⟨fun ⟨e, h1, h2⟩ => ⟨e, h1, h2⟩, fun ⟨e, h1, h2⟩ => ⟨e, h1, h2⟩⟩
  have d2 : Decidable (∀ i e', i < s → tbl.get? i = some e' →
      e'.cmd ≠ none ∧ entryMatches inp e' = false) :=
    decidable_of_iff (∀ i, i < s → ∀ e' ∈ tbl.get? i, e'.cmd ≠ none ∧ entryMatches inp e' = false)
      ⟨fun h i e' hi hg => h i hi e' hg, fun h i hi e' hg => h i e' hi hg⟩
  exact inferInstance

/-- The invocation `process` makes when the entry `e` is the one that matched:
the channel is the last character of the first segment of the command text
minus `'0'`, as a `char` converted to `unsigned`, for an entry that supports
channels and 0 for one that does not. -/
def callFor {η : Type} (tgt : Target) (inp : List Nat) (e : Handler η) : Call η :=
  { handler := e.handler
    cmd := inp
    query := isQuery inp
    channel := toUnsigned tgt
      (if e.supportsChannels then ((firstSegment inp).getLastD 0 + 256 - ZERO) % 256 else 0)
    args := (splitArgs inp).2 }

/-- The invocation the scan makes at a match of the entry `e`, given the query
flag and args in force, the input tokens `xs`, and the value `ch` that `channel`
held before. -/
def callAt {η : Type} (tgt : Target) (inp : List Nat) (query : Bool) (args : List Nat)
    (xs : List (List Nat)) (e : Handler η) (ch : Nat) : Call η :=
  { handler := e.handler
    cmd := inp
    query := query
    channel := toUnsigned tgt
      (if e.supportsChannels then ((xs.headD []).getLastD 0 + 256 - ZERO) % 256 else ch)
    args := args }

/-! ## The limits of the source -/

/-- The line stays inside the limits of the source: its command text is not
empty (line 111 reads its last character) and has at most 6 segments (8 slots
for the tokens and the two `NULL`s of lines 117-118). -/
def lineWithinLimits (inp : List Nat) : Bool :=
  decide ((splitArgs inp).1 ≠ []) && decide ((segments COLON (commandText inp)).length ≤ 6)

/-- The row stays inside the limits of the source: its template has at most 6
segments (lines 129-130) and, when the row supports channels, a first segment
that is not empty (line 135 removes its last character). -/
def rowWithinLimits {η : Type} (e : Handler η) : Bool :=
  match e.cmd with
  | none => true
  | some cmd =>
    decide ((segments COLON cmd).length ≤ 6) &&
      (!e.supportsChannels || decide ((segments COLON cmd).headD [] ≠ []))

/-- A dispatch to row `k` stays inside the limits of the source: the line and
the rows `0..k` do, `k` is below `CHAR_MAX` and is not the last row (the loop
condition reads row `k + 1` after the call), and when row `k` supports channels
the first segment of the command text is not empty (line 148 reads its last
character). -/
def dispatchWithinLimits {η : Type} (tgt : Target) (tbl : List (Handler η)) (inp : List Nat)
    (k : Nat) : Bool :=
  lineWithinLimits inp && (tbl.take (k + 1)).all rowWithinLimits &&
    decide (k < charMax tgt) && decide (k + 1 < tbl.length) &&
    (match tbl.get? k with
     | some e => !e.supportsChannels || decide (firstSegment inp ≠ [])
     | none => true)

/-- A scan that reaches the sentinel at row `s` stays inside the limits of the
source: the line and the rows before `s` do, and `s` is at most `CHAR_MAX`. -/
def scanWithinLimits {η : Type} (tgt : Target) (tbl : List (Handler η)) (inp : List Nat)
    (s : Nat) : Bool :=
  lineWithinLimits inp && (tbl.take s).all rowWithinLimits && decide (s ≤ charMax tgt)

/-! ## Rows and tables used as instances -/

/-- An entry with template `"ID"` and handler `0`. -/
def idRow : Handler Nat :=
  { cmd := some (cstr "ID"), handler := some 0, supportsChannels := false, help := none }

/-- An entry with template `"IDN"` and handler `1`. -/
def idnRow : Handler Nat :=
  { cmd := some (cstr "IDN"), handler := some 1, supportsChannels := false, help := none }

/-- A row with template `cmd` and handler `h`. -/
def plainRow (cmd : String) (h : Nat) (sc : Bool) : Handler Nat :=
  { cmd := some (cstr cmd), handler := some h, supportsChannels := sc, help := none }

/-- A table of 128 rows `"X"` and the sentinel at index 128. -/
def wideTableEnd : List (Handler Nat) :=
  List.replicate 128 (plainRow "X" 9 false) ++ [END_OF_HANDLERS]

/-- A row whose template has 7 segments. -/
def deepRow : Handler Nat := plainRow "A:B:C:D:E:F:G" 7 false

/-- A channel row whose first template segment is empty. -/
def noPlaceholderRow : Handler Nat := plainRow ":X" 8 true

/-- The byte `';'`. -/
def SEMICOLON : Nat := 59

/-- The return value the header comment of `Parser::process` documents: the
sub-string of the line that follows the first semicolon, `NULL` if the line has
none. -/
def documentedReturn (inp : List Nat) : Option (List Nat) :=
  match inp.drop (strcspn SEMICOLON inp) with
  | [] => none
  | _ :: rest => some rest

/-! ## `ExampleParser`: the per-channel handlers -/

/-- `strncasecmp(a, b, n)` in the "C" locale: zero when the first `n` characters
agree ignoring case (or both strings end before that), else the difference at
the first disagreement. -/
def strncasecmp : List Nat → List Nat → Nat → Int
  | _, _, 0 => 0
  | [], [], _ + 1 => 0
  | [], b :: _, _ + 1 => 0 - (tolower b : Int)
  | a :: _, [], _ + 1 => (tolower a : Int)
  | a :: as, b :: bs, n + 1 =>
    if tolower a = tolower b then strncasecmp as bs n
    else (tolower a : Int) - (tolower b : Int)

/-- `strcasecmp(a, b)` in the "C" locale. -/
def strcasecmp : List Nat → List Nat → Int
  | [], [] => 0
  | [], b :: _ => 0 - (tolower b : Int)
  | a :: _, [] => (tolower a : Int)
  | a :: as, b :: bs =>
    if tolower a = tolower b then strcasecmp as bs
    else (tolower a : Int) - (tolower b : Int)

/-- `NUM_CHANS`. -/
def NUM_CHANS : Nat := 8

/-- `ExampleParser::ChannelMode`. -/
inductive ChannelMode where
  | INPUT | INPUT_PULLUP | OUTPUT
deriving DecidableEq

/-- The data members of `ExampleParser`. -/
structure ExampleParser where
  p_unitID : Nat
  p_active : Bool
  p_channel : List Bool
  p_channelMode : List ChannelMode
deriving DecidableEq

/-- The constructor `ExampleParser(unitID)`. -/
def newExampleParser (unitID : Nat) : ExampleParser :=
  { p_unitID := unitID
    p_active := if unitID = 7 then true else false
    p_channel := List.replicate NUM_CHANS false
    p_channelMode := List.replicate NUM_CHANS ChannelMode.INPUT }

/-- The two per-channel arrays. -/
inductive ChannelArray where
  | p_channel | p_channelMode
deriving DecidableEq

/-- One access `array[index]` a handler makes, a store when `write` is set. -/
structure Access where
  array : ChannelArray
  index : Nat
  write : Bool
deriving DecidableEq

/-- An argument of a `printf` call. -/
inductive PrintfArg where
  | int (n : Nat)
  | str (s : List Nat)
deriving DecidableEq

/-- One call `printf(fmt, args...)`. -/
structure Printf where
  fmt : List Nat
  args : List PrintfArg
deriving DecidableEq

/-- What running a handler does: the members it leaves, the `printf` calls it
makes and the accesses to the per-channel arrays it makes, in order. -/
structure Effect where
  state : ExampleParser
  out : List Printf
  accesses : List Access
deriving DecidableEq

/-- `ExampleParser::ChannelHandler`.  In the non-query branch the two `if`s
have no braces: each guards its `printf` only, and both stores run. -/
def ChannelHandler (self : ExampleParser) (_cmd : List Nat) (query : Bool) (channel : Nat)
    (args : List Nat) : Effect :=
  if self.p_active && (decide (channel > 0) && decide (channel ≤ NUM_CHANS)) then
    if query then
      { state := self
        out := [{ fmt := cstr "CHANnel query handler called for channel \x27%d\x27 : state == \x27%s\x27\n"
                  args := [.int channel,
                    .str (if self.p_channel.getD (channel - 1) false then cstr "HI"
                          else cstr "LOW")] }]
        accesses := [{ array := .p_channel, index := channel - 1, write := false }] }
    else
      let out1 : List Printf :=
        if decide (strcasecmp args (cstr "0") = 0) || decide (strcasecmp args (cstr "OFF") = 0)
            || decide (strncasecmp args (cstr "LO") 2 = 0) then
          [{ fmt := cstr "CHANnel handler called for channel \x27%d\x27 : setting state to LOW\n"
             args := [.int channel] }]
        else []
      let chan1 := self.p_channel.set (channel - 1) false
      let out2 : List Printf :=
        if decide (strcasecmp args (cstr "1") = 0) || decide (strcasecmp args (cstr "ON") = 0)
            || decide (strncasecmp args (cstr "HI") 2 = 0) then
          [{ fmt := cstr "CHANnel handler called for channel \x27%d\x27 : setting state to HI\n"
             args := [.int channel] }]
        else []
      let chan2 := chan1.set (channel - 1) true
      { state := { self with p_channel := chan2 }
        out := out1 ++ out2
        accesses := [{ array := .p_channel, index := channel - 1, write := true },
                     { array := .p_channel, index := channel - 1, write := true }] }
  else { state := self, out := [], accesses := [] }

/-- `ExampleParser::ChannelModeHandler`. -/
def ChannelModeHandler (self : ExampleParser) (_cmd : List Nat) (query : Bool) (channel : Nat)
    (args : List Nat) : Effect :=
  if self.p_active && (decide (channel > 0) && decide (channel ≤ 8)) then
    if query then
      { state := self
        out :=
          match self.p_channelMode.get? (channel - 1) with
          | some .OUTPUT =>
            [{ fmt := cstr "CHANnel MODE query handler called for channel \x27%d\x27 : mode == \x27OUTPUT\x27\n"
               args := [.int channel] }]
          | some .INPUT_PULLUP =>
            [{ fmt := cstr "CHANnel MODE query handler called for channel \x27%d\x27 : mode == \x27INPUT_PULLUP\x27\n"
               args := [.int channel] }]
          | some .INPUT =>
            [{ fmt := cstr "CHANnel MODE query handler called for channel \x27%d\x27 : mode == \x27INPUT\x27\n"
               args := [.int channel] }]
          | none => []
        accesses := [{ array := .p_channelMode, index := channel - 1, write := false }] }
    else if strncasecmp args (cstr "OUT") 3 = 0 then
      { state := { self with p_channelMode := self.p_channelMode.set (channel - 1) .OUTPUT }
        out := [{ fmt := cstr "CHANnel MODE handler called for channel \x27%d\x27 : new mode == \x27OUTPUT\x27\n"
                  args := [.int channel] }]
        accesses := [{ array := .p_channelMode, index := channel - 1, write := true }] }
    else if strncasecmp args (cstr "INPUT_") 6 = 0 ∨ strncasecmp args (cstr "PUL") 3 = 0 then
      { state := { self with p_channelMode := self.p_channelMode.set (channel - 1) .INPUT_PULLUP }
        out := [{ fmt := cstr "CHANnel MODE handler called for channel \x27%d\x27 : setting mode to \x27INPUT_PULLUP\x27\n"
                  args := [.int channel] }]
        accesses := [{ array := .p_channelMode, index := channel - 1, write := true }] }
    else if strncasecmp args (cstr "IN") 2 = 0 then
      { state := { self with p_channelMode := self.p_channelMode.set (channel - 1) .INPUT }
        out := [{ fmt := cstr "CHANnel MODE handler called for channel \x27%d\x27 : setting mode to \x27INPUT\x27\n"
                  args := [.int channel] }]
        accesses := [{ array := .p_channelMode, index := channel - 1, write := true }] }
    else
      { state := self
        out := [{ fmt := cstr "CHANnel MODE handler called for channel \x27%d\x27 : unsupported mode \x27%s\x27\n"
                  args := [.int channel, .str args] }]
        accesses := [] }
  else { state := self, out := [], accesses := [] }

/-- What a query on channel `n` reports as the state of the channel: the `%s`
argument of the `printf` of `ChannelHandler`. -/
def reportedState (self : ExampleParser) (n : Nat) : Option (List Nat) :=
  match (ChannelHandler self [] true n []).out with
  | [{ fmt := _, args := [_, .str s] }] => some s
  | _ => none

/-! ## Templates that can match the same line -/

/-- The entries of `ExampleParser::Handlers` before the sentinel. -/
def exampleRows : List (Handler ExHandler) := Handlers.dropLast

/-- Two lists of template segments are compatible when they have the same
length and, at every index, one segment is a case-insensitive prefix of the
other: the condition for some text to begin with both. -/
def compatibleSegs : List (List Nat) → List (List Nat) → Bool
  | [], [] => true
  | a :: as, b :: bs =>
    ((a.map tolower).isPrefixOf (b.map tolower) || (b.map tolower).isPrefixOf (a.map tolower))
      && compatibleSegs as bs
  | _, _ => false

/-- Whether the templates of two entries are compatible. -/
def mayShareLine {η : Type} (e1 e2 : Handler η) : Bool :=
  match e1.cmd, e2.cmd with
  | some c1, some c2 =>
    compatibleSegs (templateSegments c1 e1.supportsChannels)
      (templateSegments c2 e2.supportsChannels)
  | _, _ => false

/-! ## Lemmas on the string functions -/

theorem strcasestr_zero_iff (hay needle : List Nat) :
    strcasestr hay needle = some 0 ↔ matchAt needle hay = true := by
  cases hay with
  | nil => simp [strcasestr]
  | cons c hay =>
    by_cases h : matchAt needle (c :: hay) = true
    · simp [strcasestr, h]
    · simp only [strcasestr, h, Bool.false_eq_true, if_false, iff_false]
      cases strcasestr hay needle <;> simp

theorem segments_ne_nil (d : Nat) (s : List Nat) : segments d s ≠ [] := by
  induction s with
  | nil => simp [segments]
  | cons c cs ih =>
    simp only [segments]
    split
    · simp
    · split <;> simp

theorem segments_unfold (d : Nat) (s : List Nat) :
    segments d s =
      match s.drop (strcspn d s) with
      | [] => [s]
      | _ :: rest => s.take (strcspn d s) :: segments d rest := by
  induction s with
  | nil => simp [segments, strcspn]
  | cons c cs ih =>
    by_cases hc : c = d
    · simp [segments, strcspn, hc]
    · simp only [segments, strcspn, hc, if_false, List.drop_succ_cons, List.take_succ_cons]
      rw [ih]
      cases List.drop (strcspn d cs) cs <;> simp

theorem strcspn_le (d : Nat) (s : List Nat) : strcspn d s ≤ s.length := by
  induction s with
  | nil => simp [strcspn]
  | cons c cs ih =>
    simp only [strcspn]
    split <;> simp [ih]

theorem segments_length (d : Nat) (s : List Nat) :
    (segments d s).length = s.count d + 1 := by
  induction s with
  | nil => simp [segments]
  | cons c cs ih =>
    by_cases hc : c = d
    · subst hc
      simp [segments, ih]
    · have hne : (c == d) = false := by simpa using hc
      simp only [segments, hc, if_false, List.count_cons, hne]
      cases hs : segments d cs with
      | nil => exact absurd hs (segments_ne_nil _ _)
      | cons t ts =>
        rw [hs] at ih
        simpa using ih

theorem segments_no_delim (d : Nat) (s : List Nat) : ∀ t ∈ segments d s, d ∉ t := by
  induction s with
  | nil => simp [segments]
  | cons c cs ih =>
    by_cases hc : c = d
    · simp only [segments, hc, if_true, List.mem_cons]
      rintro t (rfl | ht)
      · simp
      · exact ih t ht
    · simp only [segments, hc, if_false]
      cases hs : segments d cs with
      | nil => exact absurd hs (segments_ne_nil _ _)
      | cons t ts =>
        rw [hs] at ih
        simp only [List.mem_cons]
        rintro u (rfl | hu)
        · simp only [List.mem_cons, not_or]
          exact ⟨fun h => hc h.symm, ih t (by simp)⟩
        · exact ih u (by simp [hu])

theorem segments_join (d : Nat) (s : List Nat) :
    List.intercalate [d] (segments d s) = s := by
  induction s with
  | nil => simp [segments, List.intercalate]
  | cons c cs ih =>
    by_cases hc : c = d
    · simp only [segments, hc, if_true]
      cases hs : segments d cs with
      | nil => exact absurd hs (segments_ne_nil _ _)
      | cons t ts =>
        rw [hs] at ih
        rw [← ih]
        simp [List.intercalate]
    · simp only [segments, hc, if_false]
      cases hs : segments d cs with
      | nil => exact absurd hs (segments_ne_nil _ _)
      | cons t ts =>
        rw [hs] at ih
        rw [← ih]
        cases ts <;> simp [List.intercalate]

theorem storeLoop_spec (fuel : Nat) (s : List Nat) (count : Nat)
    (stores : List (Nat × Option (List Nat))) (hf : s.length + 2 ≤ fuel) :
    storeLoop fuel (some s) count stores =
      (stores ++ ((segments COLON s).enumFrom count).map (fun p => (p.1, some p.2)) ++
          [(count + (segments COLON s).length, none)],
        count + (segments COLON s).length + 1) := by
  induction fuel generalizing s count stores with
  | zero => omega
  | succ fuel ih =>
    rw [segments_unfold]
    simp only [storeLoop, strsep]
    cases hd : s.drop (strcspn COLON s) with
    | nil =>
      simp only
      cases fuel with
      | zero => omega
      | succ fuel => simp [storeLoop, strsep]
    | cons c rest =>
      simp only
      have hlen : rest.length + 1 ≤ s.length := by
        have := congrArg List.length hd
        simp only [List.length_drop, List.length_cons] at this
        omega
      rw [ih rest _ _ (by omega)]
      simp [List.enumFrom_cons, List.append_assoc, Nat.add_assoc, Nat.add_comm, Nat.add_left_comm]

theorem tokeniseStores_eq (s : List Nat) :
    tokeniseStores s =
      (segments COLON s).enum.map (fun p => (p.1, some p.2)) ++
        [((segments COLON s).length, none), ((segments COLON s).length + 1, none)] := by
  unfold tokeniseStores
  rw [storeLoop_spec _ _ _ _ (Nat.le_refl _)]
  simp [List.enum]

theorem tokeniseStores_indices (s : List Nat) :
    (tokeniseStores s).map Prod.fst = List.range ((segments COLON s).length + 2) := by
  rw [tokeniseStores_eq]
  simp only [List.map_append, List.map_map, List.map_cons, List.map_nil]
  have h : (Prod.fst ∘ fun p : Nat × List Nat => (p.1, some p.2)) = Prod.fst := rfl
  rw [h, List.enum_map_fst, List.range_succ, List.range_succ]
  simp

theorem cmpLoop_false (inputTokens tpl : List (List Nat)) (j : Nat) :
    cmpLoop inputTokens tpl j false = false := by
  cases tpl <;> simp [cmpLoop]

theorem matchAt_iff_map (needle hay : List Nat) :
    matchAt needle hay = true ↔ needle.map tolower <+: hay.map tolower := by
  induction needle generalizing hay with
  | nil => simp [matchAt]
  | cons a needle ih =>
    cases hay with
    | nil => simp [matchAt]
    | cons b hay =>
      simp only [matchAt, Bool.and_eq_true, beq_iff_eq, List.map_cons, ih hay]
      constructor
      · rintro ⟨h1, h2⟩
        rw [h1]
        exact (List.prefix_cons_inj _).2 h2
      · intro h
        obtain ⟨hh, ht⟩ := List.cons_prefix_cons.1 h
        exact ⟨hh, ht⟩

theorem tolower_eq_iff (a b : Nat) : tolower a = tolower b ↔ SameLetter a b := by
  unfold tolower SameLetter
  constructor
  · intro h
    split at h <;> split at h <;> omega
  · intro h
    split <;> split <;> omega

theorem matchAt_iff (needle hay : List Nat) : matchAt needle hay = true ↔ PrefixCI needle hay := by
  unfold PrefixCI
  induction needle generalizing hay with
  | nil =>
    simp only [matchAt, true_iff]
    exact ⟨[], hay, rfl, List.Forall₂.nil⟩
  | cons a needle ih =>
    cases hay with
    | nil =>
      simp only [matchAt, Bool.false_eq_true, false_iff]
      rintro ⟨q, r, hqr, hf⟩
      cases hf with
      | cons _ _ => simp at hqr
    | cons b hay =>
      simp only [matchAt, Bool.and_eq_true, beq_iff_eq, ih hay, tolower_eq_iff]
      constructor
      · rintro ⟨h1, q, r, hqr, hf⟩
        exact ⟨b :: q, r, by simp [hqr], List.Forall₂.cons h1 hf⟩
      · rintro ⟨q, r, hqr, hf⟩
        cases hf with
        | cons h1 hf' =>
          simp only [List.cons_append, List.cons.injEq] at hqr
          obtain ⟨hb, hr⟩ := hqr
          subst hb
          exact ⟨h1, _, r, hr, hf'⟩

theorem cmpLoop_true_iff (inputTokens tpl : List (List Nat)) (j : Nat) :
    cmpLoop inputTokens tpl j true = true ↔
      ∀ i t, tpl.get? i = some t →
        ∃ x, inputTokens.get? (j + i) = some x ∧ matchAt t x = true := by
  induction tpl generalizing j with
  | nil => simp [cmpLoop]
  | cons t ts ih =>
    simp only [cmpLoop, if_true]
    constructor
    · intro h i t' hi
      cases hx : inputTokens.get? j with
      | none => rw [hx] at h; simp [cmpLoop_false] at h
      | some x =>
        rw [hx] at h
        simp only at h
        by_cases hm : (strcasestr x t == some 0) = true
        · rw [hm] at h
          cases i with
          | zero =>
            simp only [List.get?_cons_zero, Option.some.injEq] at hi
            subst hi
            refine ⟨x, by simpa using hx, ?_⟩
            exact (strcasestr_zero_iff _ _).1 (by simpa using hm)
          | succ i =>
            simp only [List.get?_cons_succ] at hi
            have := (ih (j + 1)).1 h i t' hi
            simpa [Nat.add_assoc, Nat.add_comm 1 i] using this
        · simp only [Bool.not_eq_true] at hm
          rw [hm, cmpLoop_false] at h
          exact absurd h (by simp)
    · intro h
      obtain ⟨x, hx, hp⟩ := h 0 t (by simp)
      simp only [Nat.add_zero] at hx
      rw [hx]
      have hm : (strcasestr x t == some 0) = true := by
        simpa using (strcasestr_zero_iff _ _).2 hp
      simp only [hm]
      refine (ih (j + 1)).2 ?_
      intro i t' hi
      have := h (i + 1) t' (by simpa using hi)
      simpa [Nat.add_assoc, Nat.add_comm 1 i] using this

theorem segsMatch_iff (tpl xs : List (List Nat)) :
    segsMatch tpl xs = true ↔
      xs.length = tpl.length ∧
        ∀ i t, tpl.get? i = some t → ∃ x, xs.get? i = some x ∧ matchAt t x = true := by
  induction tpl generalizing xs with
  | nil =>
    cases xs with
    | nil => simp [segsMatch]
    | cons x xs => simp [segsMatch]
  | cons t ts ih =>
    cases xs with
    | nil => simp [segsMatch]
    | cons x xs =>
      simp only [segsMatch, Bool.and_eq_true, ih xs, List.length_cons, Nat.add_right_cancel_iff]
      constructor
      · rintro ⟨h1, h2, h3⟩
        refine ⟨h2, ?_⟩
        intro i t' hi
        cases i with
        | zero =>
          simp only [List.get?_cons_zero, Option.some.injEq] at hi
          subst hi
          exact ⟨x, by simp, h1⟩
        | succ i => simpa using h3 i t' (by simpa using hi)
      · rintro ⟨h2, h3⟩
        refine ⟨?_, h2, ?_⟩
        · obtain ⟨x', hx', hm⟩ := h3 0 t (by simp)
          simp only [List.get?_cons_zero, Option.some.injEq] at hx'
          subst hx'
          exact hm
        · intro i t' hi
          simpa using h3 (i + 1) t' (by simpa using hi)

theorem cmpLoop_eq_segsMatch (xs tpl : List (List Nat)) :
    cmpLoop xs tpl 0 (xs.length + 1 == tpl.length + 1) = segsMatch tpl xs := by
  rw [Bool.eq_iff_iff, segsMatch_iff]
  by_cases hlen : xs.length = tpl.length
  · have hb : (xs.length + 1 == tpl.length + 1) = true := by simp [hlen]
    rw [hb, cmpLoop_true_iff]
    simp [hlen]
  · have hb : (xs.length + 1 == tpl.length + 1) = false := by simpa using hlen
    rw [hb, cmpLoop_false]
    simp [hlen]

/-! ## Lemmas on the tokeniser and the per-entry test -/

theorem stores_in_bounds_iff (s : List Nat) :
    (tokeniseStores s).all (fun st => decide (st.1 < MAX_TOKEN_DEPTH)) = true ↔
      (segments COLON s).length ≤ 6 := by
  have hidx := tokeniseStores_indices s
  simp only [List.all_eq_true, decide_eq_true_eq]
  constructor
  · intro h
    have hmem : (segments COLON s).length + 1 ∈ (tokeniseStores s).map Prod.fst := by
      rw [hidx]
      simp
    obtain ⟨st, hst, hfst⟩ := List.mem_map.1 hmem
    have := h st hst
    rw [hfst] at this
    simp only [MAX_TOKEN_DEPTH] at this
    omega
  · intro h st hst
    have hmem : st.1 ∈ (tokeniseStores s).map Prod.fst := List.mem_map.2 ⟨st, hst, rfl⟩
    rw [hidx, List.mem_range] at hmem
    simp only [MAX_TOKEN_DEPTH]
    omega

theorem filterMap_enum_comp (l : List (List Nat)) (n : Nat) :
    List.filterMap (Prod.snd ∘ fun p : Nat × List Nat => (p.1, some p.2)) (l.enumFrom n) = l := by
  induction l generalizing n with
  | nil => rfl
  | cons a l ih => simp [List.enumFrom_cons, ih]

theorem storeLoop_tokens (s : List Nat) :
    (storeLoop (s.length + 2) (some s) 0 []).1.filterMap Prod.snd = segments COLON s ∧
    (storeLoop (s.length + 2) (some s) 0 []).2 = (segments COLON s).length + 1 := by
  rw [storeLoop_spec _ _ _ _ (Nat.le_refl _)]
  simp [List.filterMap_append, filterMap_enum_comp]

theorem tokenise_of_le (s : List Nat) (h : (segments COLON s).length ≤ 6) :
    tokenise s = .ok (segments COLON s, (segments COLON s).length + 1) := by
  unfold tokenise
  simp only [(stores_in_bounds_iff s).2 h, if_true, (storeLoop_tokens s).1, (storeLoop_tokens s).2]

theorem tokenise_of_gt (s : List Nat) (h : 6 < (segments COLON s).length) :
    tokenise s = .fault .tokenOverflow := by
  unfold tokenise
  have hb : ¬ (tokeniseStores s).all (fun st => decide (st.1 < MAX_TOKEN_DEPTH)) = true := by
    rw [stores_in_bounds_iff]
    omega
  rw [if_neg hb]

theorem tokenise_ok (s : List Nat) (r : List (List Nat) × Nat) (h : tokenise s = .ok r) :
    (segments COLON s).length ≤ 6 ∧ r = (segments COLON s, (segments COLON s).length + 1) := by
  by_cases hle : (segments COLON s).length ≤ 6
  · rw [tokenise_of_le s hle] at h
    exact ⟨hle, (Result.ok.inj h).symm⟩
  · rw [tokenise_of_gt s (by omega)] at h
    cases h

theorem templateSegments_length (cmd : List Nat) (sc : Bool) :
    (templateSegments cmd sc).length = (segments COLON cmd).length := by
  unfold templateSegments
  cases segments COLON cmd <;> simp

theorem templateSegments_false (cmd : List Nat) :
    templateSegments cmd false = segments COLON cmd := by
  unfold templateSegments
  cases hs : segments COLON cmd with
  | nil => rfl
  | cons t ts => simp

theorem stripPlaceholder_ok (cmd : List Nat)
    (h : (segments COLON cmd).headD [] ≠ []) :
    stripPlaceholder (segments COLON cmd) = .ok (templateSegments cmd true) := by
  unfold templateSegments
  cases hs : segments COLON cmd with
  | nil => exact absurd hs (segments_ne_nil _ _)
  | cons t ts =>
    rw [hs] at h
    cases t with
    | nil => simp at h
    | cons c cs => simp [stripPlaceholder]

theorem stripPlaceholder_result (cmd : List Nat) (r : List (List Nat))
    (h : stripPlaceholder (segments COLON cmd) = .ok r) : r = templateSegments cmd true := by
  unfold templateSegments
  cases hs : segments COLON cmd with
  | nil => exact absurd hs (segments_ne_nil _ _)
  | cons t ts =>
    rw [hs] at h
    cases t with
    | nil => simp [stripPlaceholder] at h
    | cons c cs =>
      simp only [stripPlaceholder, Result.ok.injEq] at h
      simp [← h]

/-- Whenever the per-entry test has a result, it is the matching rule. -/
theorem entryTest_result (xs : List (List Nat)) (cmd : List Nat) (sc : Bool) (b : Bool)
    (h : entryTest xs (xs.length + 1) cmd sc = .ok b) :
    b = segsMatch (templateSegments cmd sc) xs := by
  unfold entryTest at h
  cases ht : tokenise cmd with
  | fault f => simp [ht] at h
  | ok tpl =>
    obtain ⟨-, htpl⟩ := tokenise_ok cmd tpl ht
    subst htpl
    simp only [ht] at h
    cases sc with
    | false =>
      simp only [Bool.false_eq_true, if_false, Result.ok.injEq] at h
      rw [← h, templateSegments_false, cmpLoop_eq_segsMatch]
    | true =>
      simp only [if_true] at h
      cases hsp : stripPlaceholder (segments COLON cmd) with
      | fault f => simp [hsp] at h
      | ok r =>
        have hr := stripPlaceholder_result cmd r hsp
        subst hr
        simp only [hsp, Result.ok.injEq] at h
        rw [← h, ← templateSegments_length cmd true, cmpLoop_eq_segsMatch]

/-! ## Lemmas on the table scan -/

theorem entryTest_of_limits {η : Type} (xs : List (List Nat)) (e : Handler η) (cmd : List Nat)
    (hc : e.cmd = some cmd) (hl : rowWithinLimits e = true) :
    entryTest xs (xs.length + 1) cmd e.supportsChannels =
      .ok (segsMatch (templateSegments cmd e.supportsChannels) xs) := by
  simp only [rowWithinLimits, hc, Bool.and_eq_true, decide_eq_true_eq, Bool.or_eq_true,
    Bool.not_eq_true'] at hl
  obtain ⟨hlen, hfirst⟩ := hl
  unfold entryTest
  rw [tokenise_of_le cmd hlen]
  cases hsc : e.supportsChannels with
  | false =>
    simp only [Bool.false_eq_true, if_false]
    rw [← templateSegments_length cmd false, templateSegments_false, cmpLoop_eq_segsMatch]
  | true =>
    have hne : (segments COLON cmd).headD [] ≠ [] := by
      rcases hfirst with h | h
      · rw [hsc] at h
        cases h
      · exact h
    simp only [if_true, stripPlaceholder_ok cmd hne]
    rw [← templateSegments_length cmd true, cmpLoop_eq_segsMatch]

theorem channelChar_of_ne (xs : List (List Nat)) (h : xs.headD [] ≠ []) :
    channelChar xs = .ok (((xs.headD []).getLastD 0 + 256 - ZERO) % 256) := by
  unfold channelChar
  cases hx : xs.headD [] with
  | nil => exact absurd hx h
  | cons c cs =>
    cases hl : (c :: cs).getLast? with
    | none => simp at hl
    | some d =>
      have : (c :: cs).getLastD 0 = d := by
        rw [List.getLastD_eq_getLast?, hl]
        rfl
      simp only [this]

theorem channelChar_result (xs : List (List Nat)) (v : Nat) (h : channelChar xs = .ok v) :
    xs.headD [] ≠ [] ∧ v = ((xs.headD []).getLastD 0 + 256 - ZERO) % 256 := by
  by_cases hne : xs.headD [] = []
  · unfold channelChar at h
    rw [hne] at h
    simp at h
  · rw [channelChar_of_ne xs hne] at h
    exact ⟨hne, (Result.ok.inj h).symm⟩

theorem scanTable_matched {η : Type} (tgt : Target) (inp : List Nat) (query : Bool)
    (args : List Nat) (xs : List (List Nat)) (count : Nat) (h : Handler η)
    (rest : List (Handler η)) (i channel : Nat) (calls : List (Call η)) :
    scanTable tgt inp query args xs count (h :: rest) i true channel calls = .ok calls := by
  simp only [scanTable]
  cases h.cmd <;> simp

theorem scanTable_matched_result {η : Type} (tgt : Target) (inp : List Nat) (query : Bool)
    (args : List Nat) (xs : List (List Nat)) (count : Nat) (l : List (Handler η))
    (i channel : Nat) (calls cs : List (Call η))
    (h : scanTable tgt inp query args xs count l i true channel calls = .ok cs) : cs = calls := by
  cases l with
  | nil => simp [scanTable] at h
  | cons a rest =>
    rw [scanTable_matched] at h
    exact (Result.ok.inj h).symm

theorem entryMatches_of_cmd {η : Type} (inp : List Nat) (e : Handler η) (cmd : List Nat)
    (hc : e.cmd = some cmd) :
    entryMatches inp e =
      segsMatch (templateSegments cmd e.supportsChannels) (segments COLON (commandText inp)) := by
  simp only [entryMatches, hc]

theorem scan_dispatch {η : Type} (tgt : Target) (inp : List Nat) (query : Bool)
    (args : List Nat) (l : List (Handler η)) (i k : Nat) (e : Handler η) (ch : Nat)
    (calls : List (Call η))
    (hk : l.get? k = some e)
    (hrows : ∀ j e', j ≤ k → l.get? j = some e' → e'.cmd ≠ none ∧ rowWithinLimits e' = true)
    (hm : entryMatches inp e = true)
    (hfirst : ∀ j e', j < k → l.get? j = some e' → entryMatches inp e' = false)
    (hi : i + k < charMax tgt) (hnext : k + 1 < l.length)
    (hseg : e.supportsChannels = true → firstSegment inp ≠ []) :
    scanTable tgt inp query args (segments COLON (commandText inp))
        ((segments COLON (commandText inp)).length + 1) l i false ch calls =
      .ok (calls ++ [callAt tgt inp query args (segments COLON (commandText inp)) e ch]) := by
  induction l generalizing i k calls with
  | nil => simp at hk
  | cons h rest ih =>
    cases k with
    | zero =>
      simp only [List.get?_cons_zero, Option.some.injEq] at hk
      subst hk
      obtain ⟨hcmd, hlim⟩ := hrows 0 h (Nat.le_refl _) (by simp)
      cases hc : h.cmd with
      | none => exact absurd hc hcmd
      | some cmd =>
        have hET := entryTest_of_limits (segments COLON (commandText inp)) h cmd hc hlim
        rw [← entryMatches_of_cmd inp h cmd hc, hm] at hET
        have hne : ¬ i = charMax tgt := by omega
        cases rest with
        | nil => simp at hnext
        | cons h' rest' =>
          cases hsc : h.supportsChannels with
          | false =>
            rw [hsc] at hET
            simp only [scanTable, hc, hET, hsc, Bool.false_eq_true, if_false, hne,
              callAt]
            cases h'.cmd <;> simp
          | true =>
            have hch := channelChar_of_ne (segments COLON (commandText inp)) (hseg hsc)
            rw [hsc] at hET
            simp only [scanTable, hc, hET, hsc, Bool.false_eq_true, if_false, if_true, hne,
              callAt, hch]
            cases h'.cmd <;> simp
    | succ k =>
      obtain ⟨hcmd, hlim⟩ := hrows 0 h (Nat.zero_le _) (by simp)
      have hnm : entryMatches inp h = false := hfirst 0 h (Nat.succ_pos _) (by simp)
      cases hc : h.cmd with
      | none => exact absurd hc hcmd
      | some cmd =>
        have hET := entryTest_of_limits (segments COLON (commandText inp)) h cmd hc hlim
        rw [← entryMatches_of_cmd inp h cmd hc, hnm] at hET
        have hne : ¬ i = charMax tgt := by omega
        simp only [scanTable, hc, hET, Bool.false_eq_true, if_false, hne]
        exact ih (i + 1) k calls (by simpa using hk)
          (fun j e' hj hg => hrows (j + 1) e' (Nat.succ_le_succ hj) (by simpa using hg))
          (fun j e' hj hg => hfirst (j + 1) e' (Nat.succ_lt_succ hj) (by simpa using hg))
          (by omega) (by simpa using hnext)

theorem scan_nomatch {η : Type} (tgt : Target) (inp : List Nat) (query : Bool)
    (args : List Nat) (l : List (Handler η)) (i s : Nat) (sent : Handler η) (ch : Nat)
    (calls : List (Call η))
    (hs : l.get? s = some sent) (hsent : sent.cmd = none)
    (hrows : ∀ j e', j < s → l.get? j = some e' →
      e'.cmd ≠ none ∧ rowWithinLimits e' = true ∧ entryMatches inp e' = false)
    (hi : i + s ≤ charMax tgt) :
    scanTable tgt inp query args (segments COLON (commandText inp))
        ((segments COLON (commandText inp)).length + 1) l i false ch calls = .ok calls := by
  induction l generalizing i s with
  | nil => simp at hs
  | cons h rest ih =>
    cases s with
    | zero =>
      simp only [List.get?_cons_zero, Option.some.injEq] at hs
      subst hs
      simp only [scanTable, hsent]
    | succ s =>
      obtain ⟨hcmd, hlim, hnm⟩ := hrows 0 h (Nat.succ_pos _) (by simp)
      cases hc : h.cmd with
      | none => exact absurd hc hcmd
      | some cmd =>
        have hET := entryTest_of_limits (segments COLON (commandText inp)) h cmd hc hlim
        rw [← entryMatches_of_cmd inp h cmd hc, hnm] at hET
        have hne : ¬ i = charMax tgt := by omega
        simp only [scanTable, hc, hET, Bool.false_eq_true, if_false, hne]
        exact ih (i + 1) s (by simpa using hs)
          (fun j e' hj hg => hrows (j + 1) e' (Nat.succ_lt_succ hj) (by simpa using hg))
          (by omega)

/-- Whenever the scan has an outcome, it either made no invocation or made the
one for the lowest matching row before the sentinel. -/
theorem scan_result {η : Type} (tgt : Target) (inp : List Nat) (query : Bool)
    (args : List Nat) (l : List (Handler η)) (i ch : Nat) (calls cs : List (Call η))
    (h : scanTable tgt inp query args (segments COLON (commandText inp))
        ((segments COLON (commandText inp)).length + 1) l i false ch calls = .ok cs) :
    (cs = calls ∧ ∀ k e, l.get? k = some e →
        (∀ j e', j ≤ k → l.get? j = some e' → e'.cmd ≠ none) → entryMatches inp e = false) ∨
    ∃ k e, l.get? k = some e ∧ (∀ j e', j ≤ k → l.get? j = some e' → e'.cmd ≠ none) ∧
      entryMatches inp e = true ∧
      (∀ j e', j < k → l.get? j = some e' → entryMatches inp e' = false) ∧
      cs = calls ++ [callAt tgt inp query args (segments COLON (commandText inp)) e ch] := by
  induction l generalizing i with
  | nil => simp [scanTable] at h
  | cons a rest ih =>
    cases hc : a.cmd with
    | none =>
      simp only [scanTable, hc, Result.ok.injEq] at h
      left
      refine ⟨h.symm, ?_⟩
      intro k e _ hbefore
      exact absurd hc (hbefore 0 a (Nat.zero_le _) (by simp))
    | some cmd =>
      simp only [scanTable, hc, Bool.false_eq_true, if_false] at h
      cases hET : entryTest (segments COLON (commandText inp))
          ((segments COLON (commandText inp)).length + 1) cmd a.supportsChannels with
      | fault f => simp [hET] at h
      | ok b =>
        have hb := entryTest_result _ cmd a.supportsChannels b hET
        rw [← entryMatches_of_cmd inp a cmd hc] at hb
        cases b with
        | false =>
          simp only [hET] at h
          by_cases hi : i = charMax tgt
          · simp [hi] at h
          · simp only [hi, if_false] at h
            rcases ih (i + 1) h with ⟨h1, h2⟩ | ⟨k, e, h1, h2, h3, h4, h5⟩
            · left
              refine ⟨h1, ?_⟩
              intro k e hk hbefore
              cases k with
              | zero =>
                simp only [List.get?_cons_zero, Option.some.injEq] at hk
                subst hk
                exact hb.symm
              | succ k =>
                exact h2 k e (by simpa using hk)
                  (fun j e' hj hg => hbefore (j + 1) e' (Nat.succ_le_succ hj) (by simpa using hg))
            · right
              refine ⟨k + 1, e, by simpa using h1, ?_, h3, ?_, h5⟩
              · intro j e' hj hg
                cases j with
                | zero =>
                  simp only [List.get?_cons_zero, Option.some.injEq] at hg
                  subst hg
                  simp [hc]
                | succ j => exact h2 j e' (Nat.le_of_succ_le_succ hj) (by simpa using hg)
              · intro j e' hj hg
                cases j with
                | zero =>
                  simp only [List.get?_cons_zero, Option.some.injEq] at hg
                  subst hg
                  exact hb.symm
                | succ j => exact h4 j e' (Nat.lt_of_succ_lt_succ hj) (by simpa using hg)
        | true =>
          simp only [hET] at h
          right
          refine ⟨0, a, by simp, ?_, hb.symm, fun j e' hj => absurd hj (Nat.not_lt_zero _), ?_⟩
          · intro j e' hj hg
            have : j = 0 := Nat.le_zero.1 hj
            subst this
            simp only [List.get?_cons_zero, Option.some.injEq] at hg
            subst hg
            simp [hc]
          · cases hsc : a.supportsChannels with
            | false =>
              simp only [hsc, Bool.false_eq_true, if_false] at h
              by_cases hi : i = charMax tgt
              · simp only [hi, if_true] at h
                cases hs : tgt.charSigned with
                | true => simp [hs] at h
                | false =>
                  simp only [hs, Bool.false_eq_true, if_false, Result.ok.injEq] at h
                  simp [← h, callAt, hsc]
              · simp only [hi, if_false] at h
                have := scanTable_matched_result _ _ _ _ _ _ _ _ _ _ _ h
                simp [this, callAt, hsc]
            | true =>
              simp only [hsc, if_true] at h
              cases hch : channelChar (segments COLON (commandText inp)) with
              | fault f => simp [hch] at h
              | ok v =>
                obtain ⟨-, hv⟩ := channelChar_result _ v hch
                simp only [hch] at h
                by_cases hi : i = charMax tgt
                · simp only [hi, if_true] at h
                  cases hs : tgt.charSigned with
                  | true => simp [hs] at h
                  | false =>
                    simp only [hs, Bool.false_eq_true, if_false, Result.ok.injEq] at h
                    simp [← h, callAt, hsc, hv]
                · simp only [hi, if_false] at h
                  have := scanTable_matched_result _ _ _ _ _ _ _ _ _ _ _ h
                  simp [this, callAt, hsc, hv]

/-! ## Lemmas on `process` -/

theorem detectQuery_of_ne (inp : List Nat) (h : (splitArgs inp).1 ≠ []) :
    detectQuery (splitArgs inp).1 = .ok (isQuery inp, commandText inp) := by
  unfold detectQuery isQuery commandText
  cases hl : (splitArgs inp).1.getLast? with
  | none => simp [List.getLast?_eq_none_iff] at hl; exact absurd hl h
  | some c =>
    by_cases hc : c = QMARK
    · simp [hc]
    · simp [hc]

theorem detectQuery_result (inp : List Nat) (r : Bool × List Nat)
    (h : detectQuery (splitArgs inp).1 = .ok r) :
    (splitArgs inp).1 ≠ [] ∧ r = (isQuery inp, commandText inp) := by
  by_cases hne : (splitArgs inp).1 = []
  · simp [detectQuery, hne] at h
  · rw [detectQuery_of_ne inp hne] at h
    exact ⟨hne, (Result.ok.inj h).symm⟩

theorem lineWithinLimits_iff (inp : List Nat) :
    lineWithinLimits inp = true ↔
      (splitArgs inp).1 ≠ [] ∧ (segments COLON (commandText inp)).length ≤ 6 := by
  simp [lineWithinLimits]

/-- Inside the limits of the line, `process` is the scan over the segments of
the command text. -/
theorem process_of_line {η : Type} (tgt : Target) (tbl : List (Handler η)) (inp : List Nat)
    (h : lineWithinLimits inp = true) :
    process tgt tbl inp =
      match scanTable tgt inp (isQuery inp) (splitArgs inp).2 (segments COLON (commandText inp))
          ((segments COLON (commandText inp)).length + 1) tbl 0 false 0 [] with
      | .fault f => .fault f
      | .ok calls => .ok { calls := calls, ret := none } := by
  obtain ⟨h1, h2⟩ := (lineWithinLimits_iff inp).1 h
  unfold process
  simp only [detectQuery_of_ne inp h1, tokenise_of_le _ h2]

theorem process_ok_line {η : Type} (tgt : Target) (tbl : List (Handler η)) (inp : List Nat)
    (o : Outcome η) (h : process tgt tbl inp = .ok o) : lineWithinLimits inp = true := by
  rw [lineWithinLimits_iff]
  unfold process at h
  cases hd : detectQuery (splitArgs inp).1 with
  | fault f => simp [hd] at h
  | ok dq =>
    obtain ⟨hne, hdq⟩ := detectQuery_result inp dq hd
    subst hdq
    simp only [hd] at h
    cases ht : tokenise (commandText inp) with
    | fault f => simp [ht] at h
    | ok tk => exact ⟨hne, (tokenise_ok _ tk ht).1⟩

theorem callFor_eq {η : Type} (tgt : Target) (inp : List Nat) (e : Handler η) :
    callAt tgt inp (isQuery inp) (splitArgs inp).2 (segments COLON (commandText inp)) e 0 =
      callFor tgt inp e := rfl

theorem mem_take_of_get {α : Type} (l : List α) (n j : Nat) (a : α) (hj : j < n)
    (h : l.get? j = some a) : a ∈ l.take n := by
  apply List.get?_mem (n := j)
  simp only [List.get?_eq_getElem?] at h ⊢
  rw [List.getElem?_take_of_lt hj]
  exact h

/-- A dispatch inside the limits of the source: the lowest matching row gets
the one invocation. -/
theorem process_dispatch {η : Type} (tgt : Target) (tbl : List (Handler η)) (inp : List Nat)
    (k : Nat) (e : Handler η) (hm : LowestMatch tbl inp k e)
    (hl : dispatchWithinLimits tgt tbl inp k = true) :
    process tgt tbl inp = .ok { calls := [callFor tgt inp e], ret := none } := by
  obtain ⟨hk, hbefore, hme, hfirst⟩ := hm
  simp only [dispatchWithinLimits, hk, Bool.and_eq_true, List.all_eq_true, decide_eq_true_eq,
    Bool.or_eq_true, Bool.not_eq_true'] at hl
  obtain ⟨⟨⟨⟨hline, hrows⟩, hmax⟩, hnext⟩, hseg⟩ := hl
  rw [process_of_line tgt tbl inp hline]
  rw [scan_dispatch tgt inp (isQuery inp) (splitArgs inp).2 tbl 0 k e 0 [] hk
    (fun j e' hj hg => ⟨hbefore j e' hj hg,
      hrows e' (mem_take_of_get tbl (k + 1) j e' (Nat.lt_succ_of_le hj) hg)⟩)
    hme hfirst (by omega) hnext
    (fun hsc => by
      rcases hseg with h | h
      · rw [hsc] at h
        cases h
      · exact h)]
  simp only [List.nil_append, callFor_eq]

/-- A scan inside the limits of the source that finds no match before the
sentinel: no invocation. -/
theorem process_nomatch {η : Type} (tgt : Target) (tbl : List (Handler η)) (inp : List Nat)
    (s : Nat) (hn : NoMatchBefore tbl inp s) (hl : scanWithinLimits tgt tbl inp s = true) :
    process tgt tbl inp = .ok { calls := [], ret := none } := by
  obtain ⟨⟨sent, hs, hsent⟩, hrows⟩ := hn
  simp only [scanWithinLimits, Bool.and_eq_true, List.all_eq_true, decide_eq_true_eq] at hl
  obtain ⟨⟨hline, hlim⟩, hmax⟩ := hl
  rw [process_of_line tgt tbl inp hline]
  rw [scan_nomatch tgt inp (isQuery inp) (splitArgs inp).2 tbl 0 s sent 0 [] hs hsent
    (fun j e' hj hg => ⟨(hrows j e' hj hg).1, hlim e' (mem_take_of_get tbl s j e' hj hg),
      (hrows j e' hj hg).2⟩)
    (by omega)]

/-- Whenever `process` has an outcome, it returned `NULL` and either made no
invocation, no row before the sentinel matching the line, or made the one
invocation for the lowest matching row. -/
theorem process_result {η : Type} (tgt : Target) (tbl : List (Handler η)) (inp : List Nat)
    (o : Outcome η) (h : process tgt tbl inp = .ok o) :
    o.ret = none ∧
    ((o.calls = [] ∧ ∀ k e, tbl.get? k = some e →
        (∀ j e', j ≤ k → tbl.get? j = some e' → e'.cmd ≠ none) → entryMatches inp e = false) ∨
      ∃ k e, LowestMatch tbl inp k e ∧ o.calls = [callFor tgt inp e]) := by
  have hline := process_ok_line tgt tbl inp o h
  rw [process_of_line tgt tbl inp hline] at h
  cases hs : scanTable tgt inp (isQuery inp) (splitArgs inp).2 (segments COLON (commandText inp))
      ((segments COLON (commandText inp)).length + 1) tbl 0 false 0 [] with
  | fault f => simp [hs] at h
  | ok cs =>
    simp only [hs, Result.ok.injEq] at h
    subst h
    refine ⟨rfl, ?_⟩
    rcases scan_result tgt inp _ _ tbl 0 0 [] cs hs with ⟨h1, h2⟩ | ⟨k, e, h1, h2, h3, h4, h5⟩
    · exact Or.inl ⟨h1, h2⟩
    · right
      refine ⟨k, e, ⟨h1, h2, h3, h4⟩, ?_⟩
      simp only [h5, List.nil_append, callFor_eq]

theorem specMatches_iff (text cmd : List Nat) (sc : Bool) :
    SpecMatches text cmd sc ↔
      segsMatch (templateSegments cmd sc) (segments COLON text) = true := by
  rw [segsMatch_iff, templateSegments_length]
  unfold SpecMatches
  simp only [matchAt_iff]

theorem charMax_hosted_le (tgt : Target) : charMax hosted ≤ charMax tgt := by
  unfold charMax hosted
  cases tgt.charSigned <;> simp

theorem scanWithinLimits_of_hosted {η : Type} (tgt : Target) (tbl : List (Handler η))
    (inp : List Nat) (s : Nat) (h : scanWithinLimits hosted tbl inp s = true) :
    scanWithinLimits tgt tbl inp s = true := by
  have hc := charMax_hosted_le tgt
  simp only [scanWithinLimits, Bool.and_eq_true, decide_eq_true_eq] at h ⊢
  obtain ⟨⟨h1, h2⟩, h3⟩ := h
  exact ⟨⟨h1, h2⟩, by omega⟩

theorem scanTable_append_sentinel {η : Type} (tgt : Target) (inp : List Nat) (query : Bool)
    (args : List Nat) (xs : List (List Nat)) (count : Nat) (before after : List (Handler η))
    (s s' : Handler η) (hs : s.cmd = none) (hs' : s'.cmd = none) (i : Nat) (matched : Bool)
    (ch : Nat) (calls : List (Call η)) :
    scanTable tgt inp query args xs count (before ++ s :: after) i matched ch calls =
      scanTable tgt inp query args xs count (before ++ [s']) i matched ch calls := by
  induction before generalizing i matched ch calls with
  | nil => simp [scanTable, hs, hs']
  | cons a rest ih =>
    simp only [List.cons_append, scanTable]
    cases a.cmd with
    | none => rfl
    | some cmd =>
      simp only
      cases matched with
      | true => rfl
      | false =>
        simp only [Bool.false_eq_true, if_false]
        cases entryTest xs count cmd a.supportsChannels with
        | fault f => rfl
        | ok b =>
          cases b with
          | false =>
            simp only
            split
            · rfl
            · exact ih _ _ _ _
          | true =>
            simp only
            cases (if a.supportsChannels = true then channelChar xs else Result.ok ch) with
            | fault f => rfl
            | ok v =>
              simp only
              split
              · rfl
              · exact ih _ _ _ _

theorem process_append_sentinel {η : Type} (tgt : Target) (inp : List Nat)
    (before after : List (Handler η)) (s s' : Handler η) (hs : s.cmd = none)
    (hs' : s'.cmd = none) :
    process tgt (before ++ s :: after) inp = process tgt (before ++ [s']) inp := by
  unfold process
  cases detectQuery (splitArgs inp).1 with
  | fault f => rfl
  | ok dq =>
    simp only
    cases tokenise dq.2 with
    | fault f => rfl
    | ok tk =>
      simp only
      rw [scanTable_append_sentinel tgt inp dq.1 (splitArgs inp).2 tk.1 tk.2 before after s s'
        hs hs']

theorem get_append_sentinel {α : Type} (before after : List α) (s : α) :
    (before ++ s :: after).get? before.length = some s := by
  induction before with
  | nil => rfl
  | cons a rest ih => simpa using ih

theorem lowestMatch_before_sentinel {η : Type} (before after : List (Handler η))
    (s : Handler η) (hs : s.cmd = none) (inp : List Nat) (k : Nat) (e : Handler η)
    (h : LowestMatch (before ++ s :: after) inp k e) : before.get? k = some e := by
  obtain ⟨hk, hbefore, -, -⟩ := h
  by_cases hlt : k < before.length
  · simp only [List.get?_eq_getElem?] at hk ⊢
    rw [List.getElem?_append_left hlt] at hk
    exact hk
  · exfalso
    have hget := get_append_sentinel before after s
    exact hbefore before.length s (by omega) hget hs

theorem ChannelHandler_guard_false (self : ExampleParser) (cmd : List Nat) (query : Bool)
    (channel : Nat) (args : List Nat)
    (h : ¬ (self.p_active = true ∧ 1 ≤ channel ∧ channel ≤ 8)) :
    ChannelHandler self cmd query channel args = { state := self, out := [], accesses := [] } := by
  unfold ChannelHandler
  have hg : (self.p_active && (decide (channel > 0) && decide (channel ≤ NUM_CHANS))) = false := by
    simp only [NUM_CHANS, Bool.and_eq_false_iff, decide_eq_false_iff_not]
    by_cases ha : self.p_active = true
    · right
      by_cases h1 : channel > 0
      · right
        intro h8
        exact h ⟨ha, h1, h8⟩
      · left
        exact h1
    · left
      simpa using ha
  simp only [hg, Bool.false_eq_true, if_false]

theorem ChannelModeHandler_guard_false (self : ExampleParser) (cmd : List Nat) (query : Bool)
    (channel : Nat) (args : List Nat)
    (h : ¬ (self.p_active = true ∧ 1 ≤ channel ∧ channel ≤ 8)) :
    ChannelModeHandler self cmd query channel args =
      { state := self, out := [], accesses := [] } := by
  unfold ChannelModeHandler
  have hg : (self.p_active && (decide (channel > 0) && decide (channel ≤ 8))) = false := by
    simp only [Bool.and_eq_false_iff, decide_eq_false_iff_not]
    by_cases ha : self.p_active = true
    · right
      by_cases h1 : channel > 0
      · right
        intro h8
        exact h ⟨ha, h1, h8⟩
      · left
        exact h1
    · left
      simpa using ha
  simp only [hg, Bool.false_eq_true, if_false]

theorem ChannelHandler_accesses (self : ExampleParser) (cmd : List Nat) (query : Bool)
    (channel : Nat) (args : List Nat) (a : Access)
    (ha : a ∈ (ChannelHandler self cmd query channel args).accesses) :
    a.array = ChannelArray.p_channel ∧ a.index = channel - 1 := by
  unfold ChannelHandler at ha
  split at ha
  · split at ha
    · simp only [List.mem_singleton] at ha
      subst ha
      exact ⟨rfl, rfl⟩
    · simp only [List.mem_cons, List.mem_singleton, List.mem_nil_iff, or_false, or_self] at ha
      subst ha
      exact ⟨rfl, rfl⟩
  · simp at ha

theorem ChannelModeHandler_accesses (self : ExampleParser) (cmd : List Nat) (query : Bool)
    (channel : Nat) (args : List Nat) (a : Access)
    (ha : a ∈ (ChannelModeHandler self cmd query channel args).accesses) :
    a.array = ChannelArray.p_channelMode ∧ a.index = channel - 1 := by
  unfold ChannelModeHandler at ha
  split at ha
  · split at ha
    · simp only [List.mem_singleton] at ha
      subst ha
      exact ⟨rfl, rfl⟩
    · split at ha
      · simp only [List.mem_singleton] at ha
        subst ha
        exact ⟨rfl, rfl⟩
      · split at ha
        · simp only [List.mem_singleton] at ha
          subst ha
          exact ⟨rfl, rfl⟩
        · split at ha
          · simp only [List.mem_singleton] at ha
            subst ha
            exact ⟨rfl, rfl⟩
          · simp at ha
  · simp at ha

theorem ChannelHandler_frame (self : ExampleParser) (cmd : List Nat) (query : Bool)
    (channel : Nat) (args : List Nat) :
    (ChannelHandler self cmd query channel args).state.p_channelMode = self.p_channelMode ∧
    ∀ i, i ≠ channel - 1 →
      (ChannelHandler self cmd query channel args).state.p_channel.get? i =
        self.p_channel.get? i := by
  unfold ChannelHandler
  split
  · split
    · exact ⟨rfl, fun _ _ => rfl⟩
    · refine ⟨rfl, fun i hi => ?_⟩
      simp only [List.get?_eq_getElem?]
      rw [List.getElem?_set_ne (Ne.symm hi), List.getElem?_set_ne (Ne.symm hi)]
  · exact ⟨rfl, fun _ _ => rfl⟩

theorem ChannelModeHandler_frame (self : ExampleParser) (cmd : List Nat) (query : Bool)
    (channel : Nat) (args : List Nat) :
    (ChannelModeHandler self cmd query channel args).state.p_channel = self.p_channel ∧
    ∀ i, i ≠ channel - 1 →
      (ChannelModeHandler self cmd query channel args).state.p_channelMode.get? i =
        self.p_channelMode.get? i := by
  unfold ChannelModeHandler
  split
  · split
    · exact ⟨rfl, fun _ _ => rfl⟩
    · split
      · refine ⟨rfl, fun i hi => ?_⟩
        simp only [List.get?_eq_getElem?]
        rw [List.getElem?_set_ne (Ne.symm hi)]
      · split
        · refine ⟨rfl, fun i hi => ?_⟩
          simp only [List.get?_eq_getElem?]
          rw [List.getElem?_set_ne (Ne.symm hi)]
        · split
          · refine ⟨rfl, fun i hi => ?_⟩
            simp only [List.get?_eq_getElem?]
            rw [List.getElem?_set_ne (Ne.symm hi)]
          · exact ⟨rfl, fun _ _ => rfl⟩
  · exact ⟨rfl, fun _ _ => rfl⟩

theorem ChannelHandler_nonquery_high (self : ExampleParser) (cmd : List Nat) (n : Nat)
    (args : List Nat) (ha : self.p_active = true) (h1 : 1 ≤ n) (h8 : n ≤ 8)
    (hlen : self.p_channel.length = NUM_CHANS) :
    (ChannelHandler self cmd false n args).state.p_channel.get? (n - 1) = some true := by
  unfold ChannelHandler
  have hg : (self.p_active && (decide (n > 0) && decide (n ≤ NUM_CHANS))) = true := by
    simp only [NUM_CHANS, Bool.and_eq_true, decide_eq_true_eq]
    exact ⟨ha, h1, h8⟩
  simp only [hg, if_true, Bool.false_eq_true, if_false, List.get?_eq_getElem?]
  rw [List.getElem?_set_self]
  simp only [List.length_set, hlen, NUM_CHANS]
  have : n - 1 < 8 := by omega
  simp [this]

theorem compatibleSegs_of_common (X A B : List (List Nat))
    (hA : A.length = X.length) (hB : B.length = X.length)
    (hpA : ∀ j t, A.get? j = some t → ∃ x, X.get? j = some x ∧ matchAt t x = true)
    (hpB : ∀ j t, B.get? j = some t → ∃ x, X.get? j = some x ∧ matchAt t x = true) :
    compatibleSegs A B = true := by
  induction X generalizing A B with
  | nil =>
    have h1 : A = [] := List.length_eq_zero.1 (by simpa using hA)
    have h2 : B = [] := List.length_eq_zero.1 (by simpa using hB)
    subst h1 h2
    rfl
  | cons x xs ih =>
    cases A with
    | nil => simp at hA
    | cons a as =>
      cases B with
      | nil => simp at hB
      | cons b bs =>
        simp only [compatibleSegs, Bool.and_eq_true, Bool.or_eq_true, List.isPrefixOf_iff_prefix]
        constructor
        · obtain ⟨x1, hx1, h1⟩ := hpA 0 a (by simp)
          obtain ⟨x2, hx2, h2⟩ := hpB 0 b (by simp)
          simp only [List.get?_cons_zero, Option.some.injEq] at hx1 hx2
          subst hx1
          subst hx2
          exact List.prefix_or_prefix_of_prefix ((matchAt_iff_map _ _).1 h1)
            ((matchAt_iff_map _ _).1 h2)
        · apply ih as bs (by simpa using hA) (by simpa using hB)
          · intro j t ht
            have := hpA (j + 1) t (by simpa using ht)
            simpa using this
          · intro j t ht
            have := hpB (j + 1) t (by simpa using ht)
            simpa using this

theorem mayShareLine_of_both_match {η : Type} (inp : List Nat) (e1 e2 : Handler η)
    (h1 : entryMatches inp e1 = true) (h2 : entryMatches inp e2 = true) :
    mayShareLine e1 e2 = true := by
  unfold entryMatches at h1 h2
  unfold mayShareLine
  cases hc1 : e1.cmd with
  | none => simp [hc1] at h1
  | some c1 =>
    cases hc2 : e2.cmd with
    | none => simp [hc2] at h2
    | some c2 =>
      simp only [hc1] at h1
      simp only [hc2] at h2
      obtain ⟨hl1, hp1⟩ := (segsMatch_iff _ _).1 h1
      obtain ⟨hl2, hp2⟩ := (segsMatch_iff _ _).1 h2
      exact compatibleSegs_of_common (segments COLON (commandText inp)) _ _
        hl1.symm hl2.symm hp1 hp2

theorem exampleRows_clash :
    Handlers.all (fun e1 => Handlers.all (fun e2 => !mayShareLine e1 e2 || decide (e1 = e2)))
      = true := by
  decide

theorem charMax_ge (tgt : Target) : 127 ≤ charMax tgt := by
  unfold charMax
  cases tgt.charSigned <;> simp

theorem lowest_or_none {η : Type} (l t : List (Handler η)) (inp : List Nat)
    (hcmd : ∀ e, e ∈ l → e.cmd ≠ none) :
    (∀ e, e ∈ l → entryMatches inp e = false) ∨
      ∃ k e, k < l.length ∧ LowestMatch (l ++ t) inp k e := by
  induction l with
  | nil => left; simp
  | cons a rest ih =>
    by_cases hm : entryMatches inp a = true
    · right
      refine ⟨0, a, by simp, by simp, ?_, hm, fun i e' hi => absurd hi (Nat.not_lt_zero _)⟩
      intro i e' hi hg
      have : i = 0 := Nat.le_zero.1 hi
      subst this
      simp only [List.cons_append, List.get?_cons_zero, Option.some.injEq] at hg
      subst hg
      exact hcmd _ (by simp)
    · have hm' : entryMatches inp a = false := by simpa using hm
      rcases ih (fun e he => hcmd e (by simp [he])) with h | ⟨k, e, hk, h1, h2, h3, h4⟩
      · left
        intro e he
        rcases List.mem_cons.1 he with rfl | he'
        · exact hm'
        · exact h e he'
      · right
        refine ⟨k + 1, e, by simpa using hk, by simpa using h1, ?_, h3, ?_⟩
        · intro i e' hi hg
          cases i with
          | zero =>
            simp only [List.cons_append, List.get?_cons_zero, Option.some.injEq] at hg
            subst hg
            exact hcmd _ (by simp)
          | succ i => exact h2 i e' (Nat.le_of_succ_le_succ hi) (by simpa using hg)
        · intro i e' hi hg
          cases i with
          | zero =>
            simp only [List.cons_append, List.get?_cons_zero, Option.some.injEq] at hg
            subst hg
            exact hm'
          | succ i => exact h4 i e' (Nat.lt_of_succ_lt_succ hi) (by simpa using hg)

theorem noMatchBefore_of_none {η : Type} (l : List (Handler η)) (inp : List Nat)
    (hcmd : ∀ e, e ∈ l → e.cmd ≠ none) (hno : ∀ e, e ∈ l → entryMatches inp e = false) :
    NoMatchBefore (l ++ [END_OF_HANDLERS]) inp l.length := by
  refine ⟨⟨END_OF_HANDLERS, get_append_sentinel l [] END_OF_HANDLERS, rfl⟩, ?_⟩
  intro i e' hi hg
  have hmem : e' ∈ l := by
    apply List.get?_mem (n := i)
    simp only [List.get?_eq_getElem?] at hg ⊢
    rw [List.getElem?_append_left hi] at hg
    exact hg
  exact ⟨hcmd e' hmem, hno e' hmem⟩

theorem headD_ne_of_segsMatch (tpl xs : List (List Nat)) (h : segsMatch tpl xs = true)
    (ht : tpl.headD [] ≠ []) : xs.headD [] ≠ [] := by
  cases tpl with
  | nil => simp at ht
  | cons t ts =>
    cases xs with
    | nil => simp [segsMatch] at h
    | cons x xs' =>
      simp only [segsMatch, Bool.and_eq_true] at h
      simp only [List.headD_cons] at ht ⊢
      cases t with
      | nil => exact absurd rfl ht
      | cons c cs =>
        cases x with
        | nil => simp [matchAt] at h
        | cons d ds => simp

theorem process_line_fault {η : Type} (tgt : Target) (t1 t2 : List (Handler η))
    (inp : List Nat) (h : lineWithinLimits inp = false) :
    process tgt t1 inp = process tgt t2 inp := by
  unfold process
  cases hd : detectQuery (splitArgs inp).1 with
  | fault f => rfl
  | ok dq =>
    obtain ⟨hne, hdq⟩ := detectQuery_result inp dq hd
    subst hdq
    have hgt : 6 < (segments COLON (commandText inp)).length := by
      by_contra hle
      have : lineWithinLimits inp = true :=
        (lineWithinLimits_iff inp).2 ⟨hne, by omega⟩
      rw [h] at this
      cases this
    simp only [tokenise_of_gt _ hgt]

theorem dispatchWithinLimits_intro {η : Type} (tgt : Target) (tbl : List (Handler η))
    (inp : List Nat) (k : Nat) (e : Handler η) (hline : lineWithinLimits inp = true)
    (hrows : ∀ e', e' ∈ tbl → rowWithinLimits e' = true) (hk : k < charMax tgt)
    (hnext : k + 1 < tbl.length) (he : tbl.get? k = some e)
    (hseg : e.supportsChannels = true → firstSegment inp ≠ []) :
    dispatchWithinLimits tgt tbl inp k = true := by
  simp only [dispatchWithinLimits, he, Bool.and_eq_true, List.all_eq_true, decide_eq_true_eq,
    Bool.or_eq_true, Bool.not_eq_true']
  refine ⟨⟨⟨⟨hline, fun e' he' => hrows e' (List.mem_of_mem_take he')⟩, hk⟩, hnext⟩, ?_⟩
  cases hsc : e.supportsChannels with
  | false => exact Or.inl rfl
  | true => exact Or.inr (hseg hsc)

/-! ## The claims -/

/-- The per-entry test has no result outside the limits of the source, where
the rule in words still decides: a text and a template of 7 segments each are
stored past the token arrays, and a channel template with an empty first
segment has the character before it overwritten. -/
theorem entry_test_outside_limits :
    (SpecMatches (cstr "A:B:C:D:E:F:G") (cstr "A:B:C:D:E:F:G") false ∧
      testText (cstr "A:B:C:D:E:F:G") (cstr "A:B:C:D:E:F:G") false = .fault .tokenOverflow ∧
      entryTest (segments COLON (cstr "A:B:C:D:E:F:G")) 8 (cstr "A:B:C:D:E:F:G") false
        = .fault .tokenOverflow) ∧
    (SpecMatches (cstr ":Y") (cstr ":Y") true ∧
      testText (cstr ":Y") (cstr ":Y") true = .fault .emptyPlaceholder) :=
  ⟨⟨(specMatches_iff _ _ _).2 (by decide), by decide, by decide⟩,
   ⟨(specMatches_iff _ _ _).2 (by decide), by decide⟩⟩

/-- C2, amended: for a command text and a template of at most 6 segments each
(the template with a non-empty first segment when the entry supports channels),
the per-entry test of `Parser::process` (token counts equal, then
`strcasestr(inputTokens[j], tplTokens[j]) == inputTokens[j]` for every template
token) has a result, and it succeeds exactly when the text and the template
have the same number of colon-separated segments and every template segment
(the first one without its last character when the entry supports channels) is
a case-insensitive prefix of the input segment at the same index.  So
`"SYSTEM:ADDR"` and `"system:addr"` match the template `"SYST:ADDR"` and
`"SYS:ADDR"` does not; only the letters `A`-`Z` are folded. -/
theorem entryTest_iff_prefix_rule :
    (∀ (text cmd : List Nat) (supportsChannels : Bool),
      (segments COLON text).length ≤ 6 → (segments COLON cmd).length ≤ 6 →
      (supportsChannels = true → (segments COLON cmd).headD [] ≠ []) →
      ∃ b, testText text cmd supportsChannels = .ok b ∧
        (b = true ↔
          ((segments COLON text).length = (segments COLON cmd).length ∧
            ∀ j t, (templateSegments cmd supportsChannels).get? j = some t →
              ∃ x, (segments COLON text).get? j = some x ∧ PrefixCI t x))) ∧
    testText (cstr "SYSTEM:ADDR") (cstr "SYST:ADDR") false = .ok true ∧
    testText (cstr "system:addr") (cstr "SYST:ADDR") false = .ok true ∧
    testText (cstr "SyStEm:aDdReSs") (cstr "syst:ADDR") false = .ok true ∧
    testText (cstr "SYS:ADDR") (cstr "SYST:ADDR") false = .ok false ∧
    testText (cstr "chan7:mode") (cstr "CHAN0:MODE") true = .ok true ∧
    testText (cstr "az") (cstr "AZ") false = .ok true ∧
    testText (cstr "\x60") (cstr "@") false = .ok false ∧
    testText (cstr "\x7b") (cstr "[") false = .ok false := by
  refine ⟨?_, by decide, by decide, by decide, by decide, by decide, by decide, by decide,
    by decide⟩
  intro text cmd sc htext hcmd hfirst
  refine ⟨segsMatch (templateSegments cmd sc) (segments COLON text), ?_, ?_⟩
  · unfold testText
    rw [tokenise_of_le text htext]
    have hl : rowWithinLimits
        ({ cmd := some cmd, handler := none, supportsChannels := sc, help := none } :
          Handler Unit) = true := by
      simp only [rowWithinLimits, Bool.and_eq_true, decide_eq_true_eq, Bool.or_eq_true,
        Bool.not_eq_true']
      refine ⟨hcmd, ?_⟩
      cases sc with
      | false => exact Or.inl rfl
      | true => exact Or.inr (hfirst rfl)
    exact entryTest_of_limits (segments COLON text)
      ({ cmd := some cmd, handler := none, supportsChannels := sc, help := none } :
        Handler Unit) cmd rfl hl
  · exact (specMatches_iff text cmd sc).symm

/-- A concrete instance: the text `"SYSTem:ADDRess"` against the template
`"SYST:ADDR"`, where `"SYST"` is a case-insensitive prefix of `"SYSTem"`. -/
theorem entryTest_iff_prefix_rule_witness :
    ∃ b, testText (cstr "SYSTem:ADDRess") (cstr "SYST:ADDR") false = .ok b ∧
      (b = true ↔
        ((segments COLON (cstr "SYSTem:ADDRess")).length =
            (segments COLON (cstr "SYST:ADDR")).length ∧
          ∀ j t, (templateSegments (cstr "SYST:ADDR") false).get? j = some t →
            ∃ x, (segments COLON (cstr "SYSTem:ADDRess")).get? j = some x ∧ PrefixCI t x)) :=
  entryTest_iff_prefix_rule.1 (cstr "SYSTem:ADDRess") (cstr "SYST:ADDR") false
    (by decide) (by decide) (by decide)

/-- A line that matches no entry is not always without effect.  In each case
the first sentinel stands at the index named and no entry before it matches the
line, yet the call has no outcome: (1) the 7 segments of the line are stored
past `inputTokens`, the last `NULL` at index 8; (2) with the sentinel at index
128 the `char` index wraps before reaching it; (3) the last character of an
empty command text is read; (4) the 7 segments of a template are stored past
`tplTokens`; (5) the character before an empty first template segment is
overwritten. -/
theorem no_match_outside_limits :
    (NoMatchBefore Handlers (cstr "A:B:C:D:E:F:G") 13 ∧
      process hosted Handlers (cstr "A:B:C:D:E:F:G") = .fault .tokenOverflow ∧
      (8, none) ∈ tokeniseStores (cstr "A:B:C:D:E:F:G")) ∧
    (NoMatchBefore wideTableEnd (cstr "ID") 128 ∧
      process hosted wideTableEnd (cstr "ID") = .fault .indexWrap) ∧
    (NoMatchBefore Handlers (cstr "") 13 ∧
      process hosted Handlers (cstr "") = .fault .emptyCommandText) ∧
    (NoMatchBefore [deepRow, END_OF_HANDLERS] (cstr "ID") 1 ∧
      process hosted [deepRow, END_OF_HANDLERS] (cstr "ID") = .fault .tokenOverflow) ∧
    (NoMatchBefore [noPlaceholderRow, END_OF_HANDLERS] (cstr "ID") 1 ∧
      process hosted [noPlaceholderRow, END_OF_HANDLERS] (cstr "ID")
        = .fault .emptyPlaceholder) := by
  decide

/-- C7, amended: when the line matches no entry before the sentinel and the
scan up to the sentinel stays within the limits of the source (a non-empty
command text of at most 6 segments; templates of at most 6 segments, with a
non-empty first segment where the row supports channels, in the rows before the
sentinel; the sentinel at an index of at most `CHAR_MAX`), `Parser::process`
invokes no handler and does nothing else (it returns `NULL`).  Against the table
of the example, the line `"BOGUS"` invokes no handler. -/
theorem no_match_no_effect (tgt : Target) :
    (∀ (η : Type) (tbl : List (Handler η)) (inp : List Nat) (s : Nat),
        NoMatchBefore tbl inp s → scanWithinLimits tgt tbl inp s = true →
        process tgt tbl inp = .ok { calls := [], ret := none }) ∧
    process tgt Handlers (cstr "BOGUS") = .ok { calls := [], ret := none } := by
  refine ⟨fun η tbl inp s hn hl => process_nomatch tgt tbl inp s hn hl, ?_⟩
  exact process_nomatch tgt Handlers (cstr "BOGUS") 13 (by decide)
    (scanWithinLimits_of_hosted tgt Handlers (cstr "BOGUS") 13 (by decide))

/-- A concrete instance: no entry of the example table matches the line
`"BOGUS:1 2"`, and the sentinel stands at index 13. -/
theorem no_match_no_effect_witness :
    NoMatchBefore Handlers (cstr "BOGUS:1 2") 13 ∧
    scanWithinLimits hosted Handlers (cstr "BOGUS:1 2") 13 = true ∧
    process hosted Handlers (cstr "BOGUS:1 2") = .ok { calls := [], ret := none } :=
  ⟨by decide, by decide,
   (no_match_no_effect hosted).1 ExHandler Handlers (cstr "BOGUS:1 2") 13 (by decide)
     (by decide)⟩

/-- The scan does not always stop at the first sentinel: with the sentinel at
index 128 the `char` index wraps before reaching it, and the call leaves the
table, whatever stands after the sentinel. -/
theorem sentinel_not_reached :
    IsSentinel (END_OF_HANDLERS : Handler Nat) ∧
    (wideTableEnd ++ [idRow]).get? 128 = some END_OF_HANDLERS ∧
    (∀ i, i < 128 → ∀ e ∈ (wideTableEnd ++ [idRow]).get? i, e.cmd ≠ none) ∧
    entryMatches (cstr "ID") idRow = true ∧
    process hosted (wideTableEnd ++ [idRow]) (cstr "ID") = .fault .indexWrap :=
  ⟨rfl, by decide, by decide, by decide, by decide⟩

/-- C10, amended: whatever follows a sentinel in the table, the result of
`Parser::process` is that of the table cut after the sentinel, and every
invocation of a call that has an outcome is for an entry that stands before the
sentinel and matches the line: the sentinel never matches, and an entry after
it is never matched nor its handler invoked.  When the first sentinel stands at
an index of at most `CHAR_MAX`, no entry before it matches, and the scan stays
within the limits of the source, `Parser::process` stops scanning at it,
without an invocation. -/
theorem sentinel_stops_scan {η : Type} (tgt : Target) (before after : List (Handler η))
    (s : Handler η) (inp : List Nat) (hs : IsSentinel s) :
    process tgt (before ++ s :: after) inp = process tgt (before ++ [END_OF_HANDLERS]) inp ∧
    (∀ o, process tgt (before ++ s :: after) inp = .ok o → ∀ c, c ∈ o.calls →
      ∃ e, e ∈ before ∧ entryMatches inp e = true ∧ c = callFor tgt inp e) ∧
    ((∀ e, e ∈ before → e.cmd ≠ none ∧ entryMatches inp e = false) →
      scanWithinLimits tgt (before ++ s :: after) inp before.length = true →
      process tgt (before ++ s :: after) inp = .ok { calls := [], ret := none }) := by
  refine ⟨process_append_sentinel tgt inp before after s END_OF_HANDLERS hs rfl, ?_, ?_⟩
  · intro o ho c hc
    obtain ⟨-, h | ⟨k, e, hm, h⟩⟩ := process_result tgt _ inp o ho
    · rw [h.1] at hc
      simp at hc
    · rw [h, List.mem_singleton] at hc
      have hk := lowestMatch_before_sentinel before after s hs inp k e hm
      exact ⟨e, List.get?_mem hk, hm.2.2.1, hc⟩
  · intro hno hl
    apply process_nomatch tgt _ inp before.length _ hl
    refine ⟨⟨s, get_append_sentinel before after s, hs⟩, ?_⟩
    intro i e' hi hg
    apply hno e'
    apply List.get?_mem (n := i)
    simp only [List.get?_eq_getElem?] at hg ⊢
    rw [List.getElem?_append_left hi] at hg
    exact hg

/-- A concrete instance: the `"IDN"` entry placed after a sentinel is not reached
by the line `"IDN"`, which the `"ID"` entry before the sentinel takes; and with
only the sentinel before it, the line is left without an invocation. -/
theorem sentinel_stops_scan_witness :
    IsSentinel (END_OF_HANDLERS : Handler Nat) ∧
    process hosted ([idRow] ++ END_OF_HANDLERS :: [idnRow]) (cstr "IDN") =
      process hosted ([idRow] ++ [END_OF_HANDLERS]) (cstr "IDN") ∧
    process hosted ([] ++ END_OF_HANDLERS :: [idnRow]) (cstr "IDN") =
      .ok { calls := [], ret := none } :=
  ⟨rfl, (sentinel_stops_scan hosted [idRow] [idnRow] END_OF_HANDLERS (cstr "IDN") rfl).1,
   (sentinel_stops_scan hosted [] [idnRow] END_OF_HANDLERS (cstr "IDN") rfl).2.2
     (by decide) (by decide)⟩

/-- C12: the header comment of `Parser::process` documents the return value as
the sub-string following the first semicolon; the code returns `NULL` for every
table and line.  For the line `"*IDN?;*RST"` the documented value is `"*RST"`
and the value returned is `NULL`. -/
theorem process_returns_null :
    (∀ (η : Type) (tgt : Target) (tbl : List (Handler η)) (inp : List Nat),
        returned (process tgt tbl inp) = none) ∧
    documentedReturn (cstr "*IDN?;*RST") = some (cstr "*RST") ∧
    process hosted Handlers (cstr "*IDN?;*RST") =
      .ok { calls := [{ handler := some .IDNHandler, cmd := cstr "*IDN?;*RST", query := false,
                        channel := 0, args := cstr "" }]
            ret := none } := by
  refine ⟨?_, by decide, by decide⟩
  intro η tgt tbl inp
  cases hp : process tgt tbl inp with
  | fault f => rfl
  | ok o => exact (process_result tgt tbl inp o hp).1

/-- The tokenisation has no result for a text of 7 or more segments: with 7 the
`NULL` written after the loop is stored at index 8, and with 9 the ninth token
itself is stored at index 8, past the 8 slots of the array. -/
theorem tokenise_outside_limits :
    (tokenise (cstr "A:B:C:D:E:F:G") = .fault .tokenOverflow ∧
      (8, none) ∈ tokeniseStores (cstr "A:B:C:D:E:F:G")) ∧
    (tokenise (cstr "A:B:C:D:E:F:G:H:I") = .fault .tokenOverflow ∧
      (8, some (cstr "I")) ∈ tokeniseStores (cstr "A:B:C:D:E:F:G:H:I")) := by
  decide

/-- C14, amended: for every command text with at most 5 `':'`, that is at most
6 segments, the tokenisation of `Parser::process` (repeated `strsep` on `':'`)
yields one segment more than the text has `':'`, none of them containing `':'`,
and joining them with `':'` gives the text back; the counter ends one above the
number of segments.  Empty segments are kept for leading, trailing and adjacent
colons.  Templates go through the same tokenisation. -/
theorem tokenise_segments :
    (∀ (s : List Nat), s.count COLON ≤ 5 →
      ∃ toks count, tokenise s = .ok (toks, count) ∧
        toks.length = s.count COLON + 1 ∧
        (∀ t, t ∈ toks → COLON ∉ t) ∧
        List.intercalate [COLON] toks = s ∧
        count = toks.length + 1) ∧
    tokenise (cstr ":A::B:") = .ok ([cstr "", cstr "A", cstr "", cstr "B", cstr ""], 6) := by
  refine ⟨?_, by decide⟩
  intro s hs
  have hlen := segments_length COLON s
  refine ⟨segments COLON s, (segments COLON s).length + 1, tokenise_of_le s (by omega), hlen,
    segments_no_delim COLON s, segments_join COLON s, rfl⟩

/-- A concrete instance: the text `"SYST:ADDR"` has one `':'` and two tokens. -/
theorem tokenise_segments_witness :
    ∃ toks count, tokenise (cstr "SYST:ADDR") = .ok (toks, count) ∧
      toks.length = (cstr "SYST:ADDR").count COLON + 1 ∧
      (∀ t, t ∈ toks → COLON ∉ t) ∧
      List.intercalate [COLON] toks = cstr "SYST:ADDR" ∧
      count = toks.length + 1 :=
  tokenise_segments.1 (cstr "SYST:ADDR") (by decide)

/-- C15: `ExampleParser::ChannelHandler` on an active parser, channel 1, with a
non-query command whose args are `"0"`, `"OFF"` or `"lo"`.  The handler announces
"setting state to LOW", yet the state it leaves for the channel is HI
(`p_channel[0] == true`), and a following query on the channel reports `"HI"`:
the store of `true` that follows is not guarded by its `if`. -/
theorem channel_low_command_leaves_high :
    ((ChannelHandler (newExampleParser 7) (cstr "CHAN1 OFF") false 1 (cstr "OFF")).state.p_channel
        = [true, false, false, false, false, false, false, false] ∧
      (ChannelHandler (newExampleParser 7) (cstr "CHAN1 OFF") false 1 (cstr "OFF")).out.map
          Printf.fmt
        = [cstr "CHANnel handler called for channel \x27%d\x27 : setting state to LOW\n"] ∧
      reportedState
          (ChannelHandler (newExampleParser 7) (cstr "CHAN1 OFF") false 1 (cstr "OFF")).state 1
        = some (cstr "HI")) ∧
    (ChannelHandler (newExampleParser 7) (cstr "CHAN1 0") false 1 (cstr "0")).state.p_channel.get? 0
      = some true ∧
    (ChannelHandler (newExampleParser 7) (cstr "CHAN1 lo") false 1 (cstr "lo")).state.p_channel.get? 0
      = some true ∧
    reportedState (newExampleParser 7) 1 = some (cstr "LOW") := by
  decide

/-- C16: `ExampleParser::ChannelHandler` and `ExampleParser::ChannelModeHandler`
access the per-channel arrays only when the parser is active and
`1 <= channel <= 8`, and then only at index `channel - 1`, which lies in `0..7`,
each handler in its own array; the entries at every other index, and the other
array, keep their values.  In every other case (inactive parser, channel 0,
channel above 8 such as the 30 that the line `"CHAN"` produces) the handlers
access nothing and leave the members unchanged. -/
theorem channel_handlers_stay_in_range (self : ExampleParser) (cmd : List Nat) (query : Bool)
    (channel : Nat) (args : List Nat) :
    (∀ a, a ∈ (ChannelHandler self cmd query channel args).accesses →
      (self.p_active = true ∧ 1 ≤ channel ∧ channel ≤ 8) ∧
      a.array = ChannelArray.p_channel ∧ a.index = channel - 1 ∧ a.index < NUM_CHANS) ∧
    (∀ a, a ∈ (ChannelModeHandler self cmd query channel args).accesses →
      (self.p_active = true ∧ 1 ≤ channel ∧ channel ≤ 8) ∧
      a.array = ChannelArray.p_channelMode ∧ a.index = channel - 1 ∧ a.index < NUM_CHANS) ∧
    ((ChannelHandler self cmd query channel args).state.p_channelMode = self.p_channelMode ∧
      ∀ i, i ≠ channel - 1 →
        (ChannelHandler self cmd query channel args).state.p_channel.get? i =
          self.p_channel.get? i) ∧
    ((ChannelModeHandler self cmd query channel args).state.p_channel = self.p_channel ∧
      ∀ i, i ≠ channel - 1 →
        (ChannelModeHandler self cmd query channel args).state.p_channelMode.get? i =
          self.p_channelMode.get? i) ∧
    (¬ (self.p_active = true ∧ 1 ≤ channel ∧ channel ≤ 8) →
      ChannelHandler self cmd query channel args =
        { state := self, out := [], accesses := [] } ∧
      ChannelModeHandler self cmd query channel args =
        { state := self, out := [], accesses := [] }) ∧
    ChannelHandler (newExampleParser 7) (cstr "CHAN") false 30 (cstr "") =
      { state := newExampleParser 7, out := [], accesses := [] } := by
  refine ⟨?_, ?_, ChannelHandler_frame self cmd query channel args,
    ChannelModeHandler_frame self cmd query channel args, ?_, by decide⟩
  · intro a ha
    by_cases hg : self.p_active = true ∧ 1 ≤ channel ∧ channel ≤ 8
    · obtain ⟨h1, h2⟩ := ChannelHandler_accesses self cmd query channel args a ha
      refine ⟨hg, h1, h2, ?_⟩
      rw [h2]
      simp only [NUM_CHANS]
      omega
    · rw [ChannelHandler_guard_false self cmd query channel args hg] at ha
      simp at ha
  · intro a ha
    by_cases hg : self.p_active = true ∧ 1 ≤ channel ∧ channel ≤ 8
    · obtain ⟨h1, h2⟩ := ChannelModeHandler_accesses self cmd query channel args a ha
      refine ⟨hg, h1, h2, ?_⟩
      rw [h2]
      simp only [NUM_CHANS]
      omega
    · rw [ChannelModeHandler_guard_false self cmd query channel args hg] at ha
      simp at ha
  · intro hg
    exact ⟨ChannelHandler_guard_false self cmd query channel args hg,
      ChannelModeHandler_guard_false self cmd query channel args hg⟩

/-- A concrete instance: on the inactive parser of unit 3 the command
`"CHAN2:MODE OUT"` for channel 2 changes nothing, and on the active parser of
unit 7 its one access is a store at index 1. -/
theorem channel_handlers_stay_in_range_witness :
    ChannelModeHandler (newExampleParser 3) (cstr "CHAN2:MODE OUT") false 2 (cstr "OUT") =
      { state := newExampleParser 3, out := [], accesses := [] } ∧
    (ChannelModeHandler (newExampleParser 7) (cstr "CHAN2:MODE OUT") false 2
        (cstr "OUT")).accesses =
      [{ array := ChannelArray.p_channelMode, index := 1, write := true }] ∧
    (1 : Nat) < NUM_CHANS :=
  ⟨((channel_handlers_stay_in_range (newExampleParser 3) (cstr "CHAN2:MODE OUT") false 2
      (cstr "OUT")).2.2.2.2.1 (by decide)).2,
   by decide,
   ((channel_handlers_stay_in_range (newExampleParser 7) (cstr "CHAN2:MODE OUT") false 2
      (cstr "OUT")).2.1 { array := ChannelArray.p_channelMode, index := 1, write := true }
      (by decide)).2.2.2⟩

/-- C17: in the example table `ExampleParser::Handlers` every line is matched by
at most one entry under the matching rule of `Parser::process`; so with the
entries before the sentinel declared in any other order, `Parser::process`
decides every line the same way. -/
theorem example_table_unambiguous :
    Handlers.Nodup ∧
    (∀ (inp : List Nat) (e1 e2 : Handler ExHandler), e1 ∈ Handlers → e2 ∈ Handlers →
      entryMatches inp e1 = true → entryMatches inp e2 = true → e1 = e2) ∧
    (∀ (tgt : Target) (inp : List Nat) (rows : List (Handler ExHandler)),
      rows.Perm exampleRows →
      process tgt (rows ++ [END_OF_HANDLERS]) inp = process tgt Handlers inp) := by
  have huniq : ∀ (inp : List Nat) (e1 e2 : Handler ExHandler), e1 ∈ Handlers → e2 ∈ Handlers →
      entryMatches inp e1 = true → entryMatches inp e2 = true → e1 = e2 := by
    intro inp e1 e2 h1 h2 hm1 hm2
    have hs := mayShareLine_of_both_match inp e1 e2 hm1 hm2
    have hc := exampleRows_clash
    rw [List.all_eq_true] at hc
    have hc1 := hc e1 h1
    rw [List.all_eq_true] at hc1
    have hc2 := hc1 e2 h2
    simpa [hs] using hc2
  refine ⟨by decide, huniq, ?_⟩
  intro tgt inp rows hperm
  have hH : Handlers = exampleRows ++ [END_OF_HANDLERS] := by decide
  have hsub : ∀ e, e ∈ exampleRows → e ∈ Handlers := by
    intro e he
    rw [hH]
    exact List.mem_append_left _ he
  have hcmd : ∀ e, e ∈ exampleRows → e.cmd ≠ none := by decide
  have hlimE : ∀ e, e ∈ exampleRows → rowWithinLimits e = true := by decide
  have hstrip : ∀ e, e ∈ exampleRows → ∀ cmd, e.cmd = some cmd →
      (templateSegments cmd e.supportsChannels).headD [] ≠ [] := by decide
  have hlen : rows.length = 13 := by
    rw [hperm.length_eq]
    rfl
  have hmax := charMax_ge tgt
  rw [hH]
  by_cases hline : lineWithinLimits inp = true
  · -- every row, in either order, is inside the limits
    have hrows : ∀ (l : List (Handler ExHandler)), (∀ e, e ∈ l → e ∈ exampleRows) →
        ∀ e', e' ∈ l ++ [END_OF_HANDLERS] → rowWithinLimits e' = true := by
      intro l hl e' he'
      rcases List.mem_append.1 he' with h | h
      · exact hlimE e' (hl e' h)
      · rw [List.mem_singleton] at h
        subst h
        rfl
    have hdisp : ∀ (l : List (Handler ExHandler)), (∀ e, e ∈ l → e ∈ exampleRows) →
        l.length = 13 → ∀ k e, k < l.length → LowestMatch (l ++ [END_OF_HANDLERS]) inp k e →
        e ∈ exampleRows ∧
          process tgt (l ++ [END_OF_HANDLERS]) inp =
            .ok { calls := [callFor tgt inp e], ret := none } := by
      intro l hl hl13 k e hk hm
      have hget := lowestMatch_before_sentinel l [] END_OF_HANDLERS rfl inp k e hm
      have hmem : e ∈ exampleRows := hl e (List.get?_mem hget)
      refine ⟨hmem, process_dispatch tgt _ inp k e hm ?_⟩
      apply dispatchWithinLimits_intro tgt _ inp k e hline (hrows l hl) (by omega)
        (by simp; omega) hm.1
      intro _
      cases hc : e.cmd with
      | none => exact absurd hc (hcmd e hmem)
      | some cmd =>
        have hmm := hm.2.2.1
        rw [entryMatches_of_cmd inp e cmd hc] at hmm
        exact headD_ne_of_segsMatch _ _ hmm (hstrip e hmem cmd hc)
    have hnone : ∀ (l : List (Handler ExHandler)), (∀ e, e ∈ l → e ∈ exampleRows) →
        l.length = 13 → (∀ e, e ∈ l → entryMatches inp e = false) →
        process tgt (l ++ [END_OF_HANDLERS]) inp = .ok { calls := [], ret := none } := by
      intro l hl hl13 hno
      apply process_nomatch tgt _ inp l.length
        (noMatchBefore_of_none l inp (fun e he => hcmd e (hl e he)) hno)
      simp only [scanWithinLimits, hline, Bool.true_and, Bool.and_eq_true, List.all_eq_true,
        decide_eq_true_eq]
      exact ⟨fun e he => hrows l hl e (List.mem_of_mem_take he), by omega⟩
    have hrowsP : ∀ e, e ∈ rows → e ∈ exampleRows := fun e he => hperm.mem_iff.1 he
    rcases lowest_or_none rows [END_OF_HANDLERS] inp (fun e he => hcmd e (hrowsP e he)) with
      hno | ⟨k, e, hk, hm⟩
    · rw [hnone rows hrowsP hlen hno,
        hnone exampleRows (fun e he => he) rfl (fun e he => hno e (hperm.mem_iff.2 he))]
    · obtain ⟨hmem, hp⟩ := hdisp rows hrowsP hlen k e hk hm
      rcases lowest_or_none exampleRows [END_OF_HANDLERS] inp hcmd with hno | ⟨k', e', hk', hm'⟩
      · have := hno e hmem
        rw [hm.2.2.1] at this
        cases this
      · obtain ⟨hmem', hp'⟩ := hdisp exampleRows (fun e he => he) rfl k' e' hk' hm'
        have hee : e = e' := huniq inp e e' (hsub e hmem) (hsub e' hmem') hm.2.2.1 hm'.2.2.1
        rw [hp, hp', hee]
  · exact process_line_fault tgt _ _ inp (by simpa using hline)

/-- A concrete instance: with the example table reversed, the line `"CHAN3:MODE?"`
is decided as with the table as declared. -/
theorem example_table_unambiguous_witness :
    exampleRows.reverse.Perm exampleRows ∧
    process hosted (exampleRows.reverse ++ [END_OF_HANDLERS]) (cstr "CHAN3:MODE?") =
      process hosted Handlers (cstr "CHAN3:MODE?") :=
  ⟨List.reverse_perm exampleRows,
   example_table_unambiguous.2.2 hosted (cstr "CHAN3:MODE?") exampleRows.reverse
     (List.reverse_perm exampleRows)⟩

/-- C18: the stores of `Parser::process` into a token array of
`MAX_TOKEN_DEPTH = 8` slots.  For a text of `n` segments the tokens go to the
indices `0..n-1`, the `NULL` that ends the loop to index `n`, and the extra
terminator written after the loop to index `n + 1`; so every store has an index
below 8 exactly when the text has at most 6 segments, and a text of 7 segments
stores at index 8.  The tokenisation has a result exactly in the first case,
and its tokens are then the segments. -/
theorem token_stores_in_bounds_iff (s : List Nat) :
    tokeniseStores s =
      (segments COLON s).enum.map (fun p => (p.1, some p.2)) ++
        [((segments COLON s).length, none), ((segments COLON s).length + 1, none)] ∧
    (tokeniseStores s).map Prod.fst = List.range ((segments COLON s).length + 2) ∧
    ((∀ st, st ∈ tokeniseStores s → st.1 < MAX_TOKEN_DEPTH) ↔ (segments COLON s).length ≤ 6) ∧
    (segments COLON s).length = s.count COLON + 1 ∧
    ((∃ r, tokenise s = .ok r) ↔ (segments COLON s).length ≤ 6) ∧
    (∀ r, tokenise s = .ok r → r.1 = segments COLON s) ∧
    (segments COLON (cstr "A:B:C:D:E:F:G")).length = 7 ∧
    (8, none) ∈ tokeniseStores (cstr "A:B:C:D:E:F:G") := by
  refine ⟨tokeniseStores_eq s, tokeniseStores_indices s, ?_, segments_length COLON s, ?_, ?_,
    by decide, by decide⟩
  · have h := stores_in_bounds_iff s
    simp only [List.all_eq_true, decide_eq_true_eq] at h
    exact h
  · constructor
    · rintro ⟨r, hr⟩
      exact (tokenise_ok s r hr).1
    · intro h
      exact ⟨_, tokenise_of_le s h⟩
  · intro r hr
    rw [(tokenise_ok s r hr).2]

/-- A concrete instance: the six-segment text `"A:B:C:D:E:F"` stores at the
indices 0 to 7 only. -/
theorem token_stores_in_bounds_iff_witness :
    (segments COLON (cstr "A:B:C:D:E:F")).length ≤ 6 ∧
    ∀ st, st ∈ tokeniseStores (cstr "A:B:C:D:E:F") → st.1 < MAX_TOKEN_DEPTH :=
  ⟨by decide, (token_stores_in_bounds_iff (cstr "A:B:C:D:E:F")).2.2.1.2 (by decide)⟩

end ScpiLite
